import Mathlib

/-!
Verification of the Seattle crime-data Dagster pipeline
(`SeattleCrimeData_analysis/assets.py`).

The development shallowly embeds the two core assets:

* `fetch_crime_data` (incremental ingestion): checkpoint resolution from the
  MongoDB sink, day-by-day offset-paginated fetching from the Socrata API,
  and batched `UpdateOne(filter, set-fields, upsert=True)` writes.
* `clean_and_analyze_crime_data` (cleaning pipeline): deduplication, sentinel
  filters, latitude/longitude cast, NaN dropping, the (0,0) coordinate filter
  and the offense-date validation/repair loop.

Timestamps are modelled at millisecond precision as a pair
`(day index, millisecond of day)`; dates are plain day indices (`Nat`).
MongoDB documents are association lists of string fields together with the
distinguished `report_number` key and the parsed offense timestamp.
-/

namespace SeattleCrime

/-- A crime record / stored MongoDB document.  `report_number` is the natural
key used by the upsert filter; `offense_ts` is the parsed `offense_date`
timestamp as `(day index, millisecond of day)` (`none` when the document has
no `offense_date`); `fields` holds the remaining raw fields. -/
structure Rec where
  report_number : String
  offense_ts : Option (Nat × Nat)
  fields : List (String × String)
deriving DecidableEq, Repr

/-- Page size used by the fetch loop (`batch_size = 1000`). -/
def batchSize : Nat := 1000

/-- The first-ever-run fallback start date `2025-01-01`, as a day index
(days since 1970-01-01). -/
def epochDay : Nat := 20089

/-- `23:59:59.000` of a day, in milliseconds: the upper bound of the query
window `offense_date <= 'YYYY-MM-DDT23:59:59'`. -/
def lastSecondMs : Nat := 86399000

/-- Day component of a stored document's offense timestamp. -/
def recDay (r : Rec) : Option Nat := r.offense_ts.map Prod.fst

/-- The Socrata `$where` filter of `fetch_crime_data`: the record's
`offense_date` lies in `[dT00:00:00, dT23:59:59]` (second-precision upper
bound, as issued by the source code). -/
def inQueryWindow (d : Nat) (r : Rec) : Bool :=
  match r.offense_ts with
  | some t => t.1 == d && t.2 ≤ lastSecondMs
  | none => false

/-- First-match association-list lookup (MongoDB/JSON field access). -/
def lookupF : List (String × String) → String → Option String
  | [], _ => none
  | p :: l, k => if p.1 = k then some p.2 else lookupF l k

/-- Field-wise `$set`: every field of `new` is written; fields of `old` not
mentioned in `new` are kept. -/
def mergeFields (old new : List (String × String)) : List (String × String) :=
  new ++ old.filter (fun p => (lookupF new p.1).isNone)

/-- `$set` on the parsed offense timestamp: the record's value wins when the
record carries an `offense_date`, otherwise the stored value is kept. -/
def tsMerge : Option (Nat × Nat) → Option (Nat × Nat) → Option (Nat × Nat)
  | some t, _ => some t
  | none, o => o

/-- Effect of `UpdateOne({report_number: k}, {$set: record})` on the matched
stored document. -/
def mergeDoc (old r : Rec) : Rec :=
  { report_number := r.report_number
    offense_ts := tsMerge r.offense_ts old.offense_ts
    fields := mergeFields old.fields r.fields }

/-- First stored document with the given `report_number` (MongoDB's
`find_one` on the upsert filter). -/
def getDoc : List Rec → String → Option Rec
  | [], _ => none
  | d :: s, k => if d.report_number = k then some d else getDoc s k

/-- One `UpdateOne(..., upsert=True)`: replace (merge into) the first
document whose `report_number` matches, or insert the record when no
document matches.  The boolean is `true` exactly when the operation
inserted (it is counted by `upserted_count`). -/
def upsertRec : List Rec → Rec → List Rec × Bool
  | [], r => ([r], true)
  | d :: s, r =>
    if d.report_number = r.report_number then (mergeDoc d r :: s, false)
    else
      let t := upsertRec s r
      (d :: t.1, t.2)

/-- A batch of upserts (`bulk_write`), applied in record order; returns the
new sink and the batch's `upserted_count`. -/
def upsertList : List Rec → List Rec → List Rec × Nat
  | sink, [] => (sink, 0)
  | sink, r :: l =>
    let t := upsertRec sink r
    let u := upsertList t.1 l
    (u.1, (if t.2 then 1 else 0) + u.2)

/-- Maximum offense day stored in the sink, when some document carries an
`offense_date` (the checkpoint query: `find_one` sorted by `offense_date`
descending; the date of the maximal timestamp is the maximal day). -/
def maxOffenseDay : List Rec → Option Nat
  | [] => none
  | r :: s =>
    match recDay r, maxOffenseDay s with
    | none, m => m
    | some d, none => some d
    | some d, some m => some (max d m)

/-- The Checkpoint Resolver: `max_offense_date + 1 day`, or the fixed epoch
date on a first-ever run. -/
def resolveStart (sink : List Rec) : Nat :=
  match maxOffenseDay sink with
  | some m => m + 1
  | none => epochDay

/-- Ascending comparison on occurrence timestamps, as requested by the
`$order: "offense_date ASC"` parameter of every page request: lexicographic
on `(day, millisecond of day)`.  Documents without an `offense_date` sort
first; they cannot occur in a window response, whose filter requires one. -/
def tsLe (a b : Rec) : Bool :=
  match a.offense_ts, b.offense_ts with
  | none, _ => true
  | some _, none => false
  | some t1, some t2 => t1.1 < t2.1 || (t1.1 == t2.1 && t1.2 ≤ t2.2)

/-- Insert into a list that is sorted ascending by occurrence timestamp. -/
def insertByTs (r : Rec) : List Rec → List Rec
  | [] => [r]
  | x :: xs => if tsLe r x then r :: x :: xs else x :: insertByTs r xs

/-- Stable ascending sort by occurrence timestamp: the order in which the
remote service serves a day's records under `$order=offense_date ASC`. -/
def sortByTs : List Rec → List Rec
  | [] => []
  | x :: xs => insertByTs x (sortByTs xs)

/-- Records of the remote dataset answering day `d`'s query window,
served ascending by occurrence timestamp (`$order=offense_date ASC`). -/
def matchingRecords (remote : List Rec) (d : Nat) : List Rec :=
  sortByTs (remote.filter (inQueryWindow d))

/-- The page loop for one day: request pages of `batchSize` records at
offsets `0, batchSize, 2*batchSize, ...` until a page comes back empty.
`failAt d offset` models a non-success HTTP response or transport error for
that page request (`raise_for_status` / `requests` exception): the request
is issued, no page is obtained, and the run aborts.  Returns the issued
requests `(day, offset)`, the fully retrieved pages, and the abort flag.
`remaining` is the not-yet-served suffix of the day's matching records,
starting as the full list at offset 0.  The `fuel` argument only bounds the
iteration count so the recursion is structural; the wrapper `dayPages`
supplies `remaining.length + 1`, which the loop can never exhaust since
every iteration consumes at least one record. -/
def dayPagesGo (failAt : Nat → Nat → Bool) (d : Nat) :
    Nat → List Rec → Nat → List (Nat × Nat) × List (List Rec) × Bool
  | 0, _, offset => ([(d, offset)], [], true)
  | fuel + 1, remaining, offset =>
    if failAt d offset then ([(d, offset)], [], true)
    else if remaining = [] then ([(d, offset)], [], false)
    else
      let rest := dayPagesGo failAt d fuel (remaining.drop batchSize) (offset + batchSize)
      ((d, offset) :: rest.1, remaining.take batchSize :: rest.2.1, rest.2.2)

/-- The page loop for one day, starting with the day's full matching list. -/
def dayPages (failAt : Nat → Nat → Bool) (d : Nat) (remaining : List Rec)
    (offset : Nat) : List (Nat × Nat) × List (List Rec) × Bool :=
  dayPagesGo failAt d (remaining.length + 1) remaining offset

/-- The outer `while current_date <= today` loop, iterating over the `n`
days `current, current + 1, ..., current + n - 1` and aborting the whole
run at the first failed page request. -/
def daysGo (failAt : Nat → Nat → Bool) (remote : List Rec) :
    Nat → Nat → List (Nat × Nat) × List (List Rec) × Bool
  | _, 0 => ([], [], false)
  | current, n + 1 =>
    let day := dayPages failAt current (matchingRecords remote current) 0
    if day.2.2 then day
    else
      let rest := daysGo failAt remote (current + 1) n
      (day.1 ++ rest.1, day.2.1 ++ rest.2.1, rest.2.2)

/-- The day loop from `current` through `today` inclusive (the loop body
runs once per day with `current <= today`, i.e. `today + 1 - current`
times). -/
def daysLoop (failAt : Nat → Nat → Bool) (remote : List Rec)
    (current today : Nat) : List (Nat × Nat) × List (List Rec) × Bool :=
  daysGo failAt remote current (today + 1 - current)

/-- Outcome of one run of the ingestion asset: the sink after the run, the
accumulated `upserted_count`, the page requests issued, the fully retrieved
pages (each written durably right after retrieval), and whether the run
aborted with a propagated fetch error. -/
structure RunResult where
  sink : List Rec
  inserted : Nat
  requests : List (Nat × Nat)
  batches : List (List Rec)
  aborted : Bool
deriving DecidableEq, Repr

/-- The ingestion asset `fetch_crime_data`: resolve the checkpoint; when
`start > today` return at once (no request, no write); otherwise fetch
day-by-day and upsert every fully retrieved page, page by page, in order
(the fold over the concatenation of the pages equals the page-by-page
`bulk_write` sequence). -/
def fetch_crime_data (failAt : Nat → Nat → Bool) (remote sink : List Rec)
    (today : Nat) : RunResult :=
  if resolveStart sink > today then ⟨sink, 0, [], [], false⟩
  else
    let t := daysLoop failAt remote (resolveStart sink) today
    let u := upsertList sink t.2.1.flatten
    ⟨u.1, u.2, t.1, t.2.1, t.2.2⟩

/-- A fault-free transport: every page request succeeds. -/
def noFail : Nat → Nat → Bool := fun _ _ => false

/-- View of the sink as its stored key column (`report_number` of each
document, in storage order). -/
def sinkKeys (s : List Rec) : List String :=
  s.map (fun r => r.report_number)

/-- Effect of upserting record `r` onto the (possibly absent) document
currently stored under its key: merge when present, insert when absent. -/
def applyRec : Option Rec → Rec → Rec
  | some d, r => mergeDoc d r
  | none, r => r

/-- Effect of a record sequence on the document stored under one key. -/
def applyList : Option Rec → List Rec → Option Rec
  | od, [] => od
  | od, r :: l => applyList (some (applyRec od r)) l

/-- Folding a record sequence onto a present document by `$set` merges. -/
def mergeList (d : Rec) (l : List Rec) : Rec :=
  l.foldl mergeDoc d

/-- The subsequence of a batch addressing one key. -/
def keyFilter (L : List Rec) (k : String) : List Rec :=
  L.filter (fun r => decide (r.report_number = k))

/-- No record of `l` sets the field named `f`. -/
def fieldKeyFree (l : List Rec) (f : String) : Bool :=
  l.all (fun r => (lookupF r.fields f).isNone)

/-- All records fetched by the day loop over the `n` days
`current, ..., current + n - 1`, in fetch order (the concatenation of the
per-day pages under a fault-free transport). -/
def dayRecordsGo (remote : List Rec) : Nat → Nat → List Rec
  | _, 0 => []
  | current, n + 1 => matchingRecords remote current ++ dayRecordsGo remote (current + 1) n

/-- Modelled from the spec: a record's occurrence timestamp falls within day
`d`'s full 24-hour window.  Used to state claim C5 as written; the source
issues the narrower window `offense_date <= 'YYYY-MM-DDT23:59:59'`. -/
def inFullDayWindow (d : Nat) (r : Rec) : Bool :=
  match r.offense_ts with
  | some t => t.1 == d && t.2 < 86400000
  | none => false

/-- Modelled from the spec: the full-document-replacement upsert semantics
claimed for an already-present key — after the upsert, the stored document's
field map equals the new record's field map exactly. -/
def fullReplacement (sink : List Rec) (r : Rec) : Prop :=
  ∀ doc, getDoc (upsertRec sink r).1 r.report_number = some doc →
    ∀ f, lookupF doc.fields f = lookupF r.fields f

/-!
Cleaning pipeline (`clean_and_analyze_crime_data`).

A raw input row carries the string columns selected by the loader, already
under their normalized (lowercased, `nibrs`-stripped) names; `others`
collects the remaining columns, which the pipeline only ever reads for the
exact-duplicate and missing-value checks.  Missing values (pandas `NaN`)
are `none`.
-/

/-- One raw row of the table handed to the cleaning asset. -/
structure Row where
  report_number : Option String
  offense_date : Option String
  crime_against_category : Option String
  precinct : Option String
  latitude : Option String
  longitude : Option String
  others : List (Option String)
deriving DecidableEq, Repr

/-- The exact value `mantissa / 10 ^ scale` of a plain decimal literal.
The cleaning pipeline's only numeric test on a coordinate is equality with
`0.0`, which holds for the IEEE value of such a literal exactly when the
mantissa is zero, so this representation decides every test the code
performs identically to floating point. -/
structure DecVal where
  mantissa : Int
  scale : Nat
deriving DecidableEq, Repr

/-- The test `column == 0.0` on a cast coordinate cell (false on `NaN`,
as in pandas). -/
def isZeroCoord : Option DecVal → Bool
  | some v => v.mantissa == 0
  | none => false

/-- A row after `astype(float)` on latitude/longitude: the raw row together
with the parsed coordinates (still `none` when the raw value was missing). -/
structure RowF where
  raw : Row
  latitude : Option DecVal
  longitude : Option DecVal
deriving DecidableEq, Repr

/-- pandas `crime_df.duplicated().any()`: some row equals an earlier row. -/
def hasDup : List Row → Bool
  | [] => false
  | x :: xs => if x ∈ xs then true else hasDup xs

/-- pandas `drop_duplicates()`: keep each row's first occurrence, walking
the frame top to bottom with the set of rows seen so far. -/
def dropDupGo (seen : List Row) : List Row → List Row
  | [] => []
  | x :: xs => if x ∈ seen then dropDupGo seen xs else x :: dropDupGo (x :: seen) xs

/-- pandas `drop_duplicates()`. -/
def dropDuplicates (l : List Row) : List Row := dropDupGo [] l

/-- Numeric value of a digit string. -/
def natOfDigits (l : List Char) : Nat :=
  l.foldl (fun a c => 10 * a + (c.toNat - 48)) 0

/-- Unsigned plain decimal literal: `digits`, `digits.`, `digits.digits`
or `.digits`; returns the mantissa and the number of fraction digits. -/
def parseUnsignedDec (cs : List Char) : Option (Nat × Nat) :=
  let ip := cs.takeWhile Char.isDigit
  let rest := cs.dropWhile Char.isDigit
  match rest with
  | [] => if ip.isEmpty then none else some (natOfDigits ip, 0)
  | '.' :: fr =>
    if fr.all Char.isDigit && !(ip.isEmpty && fr.isEmpty) then
      some (natOfDigits (ip ++ fr), fr.length)
    else none
  | _ => none

/-- Python `float(s)` on the plain decimal strings occurring in the data:
optional surrounding whitespace, optional sign, decimal digits with an
optional point. -/
def parseDecimal? (s : String) : Option DecVal :=
  let cs := s.data.dropWhile Char.isWhitespace
  let cs2 := (cs.reverse.dropWhile Char.isWhitespace).reverse
  match cs2 with
  | '-' :: r => (parseUnsignedDec r).map (fun p => ⟨-(p.1 : Int), p.2⟩)
  | '+' :: r => (parseUnsignedDec r).map (fun p => ⟨(p.1 : Int), p.2⟩)
  | r => (parseUnsignedDec r).map (fun p => ⟨(p.1 : Int), p.2⟩)

/-- `astype(float)` on one cell: missing stays missing (`NaN`), a parseable
string becomes its value, an unparseable string raises (models the whole
asset run failing). -/
def castVal : Option String → Option (Option DecVal)
  | none => some none
  | some s =>
    match parseDecimal? s with
    | some q => some (some q)
    | none => none

/-- `astype(float)` on the two coordinate columns of one row. -/
def castRow (r : Row) : Option RowF := do
  let la ← castVal r.latitude
  let lo ← castVal r.longitude
  some ⟨r, la, lo⟩

/-- `astype(float)` on the whole frame; `none` when any cell raises. -/
def castRows : List Row → Option (List RowF)
  | [] => some []
  | r :: l => do
    let rf ← castRow r
    let lf ← castRows l
    some (rf :: lf)

/-- pandas `dropna()`: every column of the row holds a value. -/
def rowNotNull (r : RowF) : Bool :=
  r.raw.report_number.isSome && r.raw.offense_date.isSome &&
  r.raw.crime_against_category.isSome && r.raw.precinct.isSome &&
  r.latitude.isSome && r.longitude.isSome && r.raw.others.all Option.isSome

/-- Leap-year rule of the Gregorian calendar (Python `datetime`). -/
def leapYear (y : Nat) : Bool :=
  (y % 4 == 0 && y % 100 != 0) || y % 400 == 0

/-- Number of days of month `m` in year `y` (Python `datetime`). -/
def daysInMonth (y m : Nat) : Nat :=
  if m = 2 then (if leapYear y then 29 else 28)
  else if m = 4 ∨ m = 6 ∨ m = 9 ∨ m = 11 then 30
  else 31

/-- The month alternation `(0[1-9]|1[0-2])` of the strict ISO regex. -/
def monthChars (a b : Char) : Bool :=
  (a = '0' && b.isDigit && b ≠ '0') ||
  (a = '1' && (b = '0' || b = '1' || b = '2'))

/-- The day alternation `(0[1-9]|[12]\d|3[01])` of the strict ISO regex. -/
def dayChars (a b : Char) : Bool :=
  (a = '0' && b.isDigit && b ≠ '0') ||
  ((a = '1' || a = '2') && b.isDigit) ||
  (a = '3' && (b = '0' || b = '1'))

/-- The hour alternation `([01]\d|2[0-3])` of the strict ISO regex. -/
def hourChars (a b : Char) : Bool :=
  ((a = '0' || a = '1') && b.isDigit) ||
  (a = '2' && (b = '0' || b = '1' || b = '2' || b = '3'))

/-- The minute/second alternation `([0-5]\d)` of the strict ISO regex. -/
def minSecChars (a b : Char) : Bool :=
  (a = '0' || a = '1' || a = '2' || a = '3' || a = '4' || a = '5') && b.isDigit

/-- The optional fraction `(\.\d{1,3})?$` of the strict ISO regex. -/
def fracChars : List Char → Bool
  | [] => true
  | '.' :: ds => !ds.isEmpty && ds.length ≤ 3 && ds.all Char.isDigit
  | _ => false

/-- The anchored pattern `iso_8601_pattern`:
`^\d{4}-(0[1-9]|1[0-2])-(0[1-9]|[12]\d|3[01])T([01]\d|2[0-3]):([0-5]\d):([0-5]\d)(\.\d{1,3})?$`. -/
def isoMatch (s : String) : Bool :=
  match s.data with
  | y1 :: y2 :: y3 :: y4 :: '-' :: m1 :: m2 :: '-' :: d1 :: d2 :: 'T' ::
      h1 :: h2 :: ':' :: mi1 :: mi2 :: ':' :: se1 :: se2 :: rest =>
    y1.isDigit && y2.isDigit && y3.isDigit && y4.isDigit &&
    monthChars m1 m2 && dayChars d1 d2 && hourChars h1 h2 &&
    minSecChars mi1 mi2 && minSecChars se1 se2 && fracChars rest
  | _ => false

/-- A parsed `datetime` value. -/
structure DateTimeVal where
  year : Nat
  month : Nat
  day : Nat
  hour : Nat
  minute : Nat
  second : Nat
deriving DecidableEq, Repr

/-- CPython `strptime`'s `%Y`: exactly four digits (a fifth digit is left in
the input, where it then fails the following literal). -/
def parseYear4 : List Char → Option (Nat × List Char)
  | a :: b :: c :: d :: rest =>
    if a.isDigit && b.isDigit && c.isDigit && d.isDigit then
      some (natOfDigits [a, b, c, d], rest)
    else none
  | _ => none

/-- CPython `strptime`'s one-or-two-digit numeric fields (`%m`, `%d`, `%H`,
`%M`, `%S`).  The regex alternations consume at most two digits and every
field is followed by a non-digit literal or the end of the format, so a
match must consume the whole digit run: a run longer than two digits can
never parse, and the run's value is range-checked by the caller. -/
def parseField2 (cs : List Char) : Option (Nat × List Char) :=
  let ds := cs.takeWhile Char.isDigit
  if ds.length = 1 ∨ ds.length = 2 then
    some (natOfDigits ds, cs.dropWhile Char.isDigit)
  else none

/-- An exact literal character of the format string. -/
def parseLit (c : Char) : List Char → Option (List Char)
  | x :: r => if x = c then some r else none
  | [] => none

/-- The literal `T` of `%Y-%m-%dT%H:%M:%S` (CPython compiles the format
regex with `IGNORECASE`, so `t` also matches). -/
def parseLitT : List Char → Option (List Char)
  | x :: r => if x = 'T' ∨ x = 't' then some r else none
  | [] => none

/-- A whitespace literal of the format string matches one or more
whitespace characters (`\s+` in CPython's `TimeRE`). -/
def parseWhite (cs : List Char) : Option (List Char) :=
  if (cs.takeWhile Char.isWhitespace).isEmpty then none
  else some (cs.dropWhile Char.isWhitespace)

/-- `datetime.strptime(s, fmt)` for the two formats used by
`correct_datetime`: `%Y-%m-%d %H:%M:%S` (`sepIsT = false`) and
`%Y-%m-%dT%H:%M:%S` (`sepIsT = true`).  The trailing `cs = []` check is the
"unconverted data remains" error; the range checks are the `datetime`
constructor's (month 1-12, calendar day, hour 0-23, minute/second 0-59 —
the regex also admits seconds 60/61, which the constructor then rejects,
and both failures are caught alike by the bare `except`). -/
def parseStrptime (sepIsT : Bool) (s : String) : Option DateTimeVal := do
  let cs0 := s.data
  let (y, cs1) ← parseYear4 cs0
  let cs2 ← parseLit '-' cs1
  let (mo, cs3) ← parseField2 cs2
  let cs4 ← parseLit '-' cs3
  let (d, cs5) ← parseField2 cs4
  let cs6 ← if sepIsT then parseLitT cs5 else parseWhite cs5
  let (h, cs7) ← parseField2 cs6
  let cs8 ← parseLit ':' cs7
  let (mi, cs9) ← parseField2 cs8
  let cs10 ← parseLit ':' cs9
  let (se, cs11) ← parseField2 cs10
  if cs11 = [] ∧ 1 ≤ y ∧ 1 ≤ mo ∧ mo ≤ 12 ∧ 1 ≤ d ∧ d ≤ daysInMonth y mo
      ∧ h ≤ 23 ∧ mi ≤ 59 ∧ se ≤ 59 then
    some ⟨y, mo, d, h, mi, se⟩
  else none

/-- Zero-padded two-digit rendering (`%m`, `%d`, `%H`, `%M`, `%S`). -/
def pad2 (n : Nat) : String :=
  if n < 10 then "0" ++ toString n else toString n

/-- Four-digit year rendering of `%Y`. -/
def pad4 (n : Nat) : String :=
  if n < 10 then "000" ++ toString n
  else if n < 100 then "00" ++ toString n
  else if n < 1000 then "0" ++ toString n
  else toString n

/-- `strftime("%Y-%m-%dT%H:%M:%S.000")`. -/
def formatIsoMs (t : DateTimeVal) : String :=
  pad4 t.year ++ "-" ++ pad2 t.month ++ "-" ++ pad2 t.day ++ "T" ++
    pad2 t.hour ++ ":" ++ pad2 t.minute ++ ":" ++ pad2 t.second ++ ".000"

/-- The helper `correct_datetime`: try `%Y-%m-%d %H:%M:%S`, then
`%Y-%m-%dT%H:%M:%S`; on success reformat to millisecond-precision ISO
form, else return `None`. -/
def correct_datetime (s : String) : Option String :=
  match parseStrptime false s with
  | some t => some (formatIsoMs t)
  | none =>
    match parseStrptime true s with
    | some t => some (formatIsoMs t)
    | none => none

/-- One iteration of the offense-date validation loop: keep a strict-ISO
value unchanged, else repair via `correct_datetime`, else mark invalid
(`None`).  The boolean reports whether the value counted as valid. -/
def processDate (v : String) : Option String × Bool :=
  if isoMatch v then (some v, true)
  else
    match correct_datetime v with
    | some f => (some f, true)
    | none => (none, false)

/-- Write the corrected offense date back into the row. -/
def setDate (r : RowF) (o : Option String) : RowF :=
  { r with raw := { r.raw with offense_date := o } }

/-- The offense-date loop over the frame: returns the frame with the
corrected column together with the valid and invalid counters.  A missing
value renders as the string `"nan"` under `astype(str)`, which both parsers
reject. -/
def fixDates : List RowF → List RowF × Nat × Nat
  | [] => ([], 0, 0)
  | r :: l =>
    let p := processDate (r.raw.offense_date.getD "nan")
    let rest := fixDates l
    (setDate r p.1 :: rest.1,
     (if p.2 then 1 else 0) + rest.2.1,
     (if p.2 then 0 else 1) + rest.2.2)

/-- Metadata the cleaning asset reports. -/
structure CleanMeta where
  rowsAfter : Nat
  duplicatesRemoved : Bool
  validDt : Nat
  invalidDt : Nat
deriving DecidableEq, Repr

/-- Output of the cleaning asset. -/
structure CleanResult where
  rows : List RowF
  meta : CleanMeta
deriving DecidableEq, Repr

/-- The cleaning asset `clean_and_analyze_crime_data`, step for step:
copy, dedup (with the duplicate flag recomputed on the deduplicated frame,
as in the source), sentinel filters on category and precinct, the
latitude sentinel filter, `astype(float)` (whose failure fails the run:
`none`), `dropna()`, the `NOT_A_CRIME` filter, the `(0.0, 0.0)` coordinate
filter, and the offense-date validation with its `dropna(subset)`. -/
def clean_and_analyze_crime_data (input : List Row) : Option CleanResult :=
  let df0 := input.map id
  let df1 := if hasDup df0 then dropDuplicates df0 else df0
  let hadDuplicates := hasDup df1
  let df2 := if hadDuplicates then dropDuplicates df1 else df1
  let df3 := df2.filter (fun r => decide (r.crime_against_category ≠ some "-"))
  let df4 := df3.filter (fun r => decide (r.precinct ≠ some "-"))
  let df5 := df4.filter (fun r =>
    decide (r.latitude ≠ some "REDACTED") && decide (r.latitude ≠ some "-1.0"))
  match castRows df5 with
  | none => none
  | some dfF =>
    let df6 := dfF.filter rowNotNull
    let df7 := df6.filter (fun r =>
      decide (r.raw.crime_against_category ≠ some "NOT_A_CRIME"))
    let df8 := df7.filter (fun r =>
      !(isZeroCoord r.longitude && isZeroCoord r.latitude))
    let fd := fixDates df8
    let df9 := fd.1.filter (fun r => r.raw.offense_date.isSome)
    some ⟨df9, ⟨df9.length, hadDuplicates, fd.2.1, fd.2.2⟩⟩

/-- The asset call as seen by the caller: the upstream table object passed
in, and the asset's result.  The body's first statement copies the input
(`crime_df = load_....copy()`, modelled by `input.map id` inside
`clean_and_analyze_crime_data`); every later statement rebinds or mutates
only the copy, so the caller's object is returned unchanged. -/
def clean_asset_call (input : List Row) : Option CleanResult × List Row :=
  (clean_and_analyze_crime_data input, input)

/-! ## Helper lemmas: field lookup and the `$set` merge -/

theorem lookupF_append (a b : List (String × String)) (f : String) :
    lookupF (a ++ b) f =
      match lookupF a f with
      | some v => some v
      | none => lookupF b f := by
  induction a with
  | nil => simp [lookupF]
  | cons p l ih =>
    by_cases h : p.1 = f
    · simp [lookupF, h]
    · simp [lookupF, h, ih]

theorem lookupF_isSome_of_mem {l : List (String × String)} {p : String × String}
    (h : p ∈ l) : (lookupF l p.1).isSome := by
  induction l with
  | nil => cases h
  | cons q l ih =>
    rcases List.mem_cons.1 h with h1 | h2
    · subst h1; simp [lookupF]
    · by_cases hq : q.1 = p.1
      · simp [lookupF, hq]
      · simp [lookupF, hq, ih h2]

theorem filter_lookup_self (l : List (String × String)) :
    l.filter (fun p => (lookupF l p.1).isNone) = [] := by
  rw [List.filter_eq_nil_iff]
  intro p hp
  have h := lookupF_isSome_of_mem hp
  rcases Option.isSome_iff_exists.1 h with ⟨v, hv⟩
  simp [hv]

theorem lookupF_filter_notin (old new : List (String × String)) (f : String)
    (h : lookupF new f = none) :
    lookupF (old.filter (fun p => (lookupF new p.1).isNone)) f = lookupF old f := by
  induction old with
  | nil => simp [lookupF]
  | cons p l ih =>
    by_cases hp : p.1 = f
    · have hc : (lookupF new p.1).isNone = true := by rw [hp, h]; rfl
      rw [List.filter_cons, hc]
      simp [lookupF, hp]
    · cases hq : (lookupF new p.1).isNone
      · simp [List.filter_cons, hq, lookupF, hp, ih]
      · simp [List.filter_cons, hq, lookupF, hp, ih]

theorem mergeFields_lookup (old new : List (String × String)) (f : String) :
    lookupF (mergeFields old new) f =
      match lookupF new f with
      | some v => some v
      | none => lookupF old f := by
  unfold mergeFields
  rw [lookupF_append]
  cases h : lookupF new f with
  | some v => simp
  | none => simp [lookupF_filter_notin old new f h]

theorem mergeDoc_report_number (d r : Rec) :
    (mergeDoc d r).report_number = r.report_number := rfl

theorem tsMerge_absorb (a b : Option (Nat × Nat)) :
    tsMerge a (tsMerge a b) = tsMerge a b := by
  cases a <;> simp [tsMerge]

theorem mergeFields_absorb (old new : List (String × String)) :
    mergeFields (mergeFields old new) new = mergeFields old new := by
  unfold mergeFields
  rw [List.filter_append, filter_lookup_self, List.filter_filter]
  simp

theorem mergeDoc_absorb (d r : Rec) :
    mergeDoc (mergeDoc d r) r = mergeDoc d r := by
  unfold mergeDoc
  simp [tsMerge_absorb, mergeFields_absorb]

theorem mergeDoc_self (r : Rec) : mergeDoc r r = r := by
  cases r with
  | mk rn ts fs =>
    unfold mergeDoc mergeFields
    cases ts <;> simp [tsMerge, filter_lookup_self]

/-! ## Helper lemmas: single upserts -/

theorem upsertRec_not_mem (sink : List Rec) (r : Rec)
    (h : getDoc sink r.report_number = none) :
    upsertRec sink r = (sink ++ [r], true) := by
  induction sink with
  | nil => simp [upsertRec]
  | cons d s ih =>
    unfold getDoc at h
    by_cases hd : d.report_number = r.report_number
    · simp [hd] at h
    · rw [if_neg hd] at h
      simp [upsertRec, hd, ih h]

theorem upsertRec_mem (sink : List Rec) (r : Rec) (old : Rec)
    (h : getDoc sink r.report_number = some old) :
    (upsertRec sink r).2 = false ∧
    getDoc (upsertRec sink r).1 r.report_number = some (mergeDoc old r) := by
  induction sink with
  | nil => simp [getDoc] at h
  | cons d s ih =>
    by_cases hd : d.report_number = r.report_number
    · unfold getDoc at h
      rw [if_pos hd] at h
      cases h
      constructor
      · simp [upsertRec, hd]
      · simp [upsertRec, hd, getDoc, mergeDoc_report_number]
    · unfold getDoc at h
      rw [if_neg hd] at h
      have h2 := ih h
      constructor
      · simp [upsertRec, hd, h2.1]
      · simp [upsertRec, hd, getDoc, h2.2]

theorem upsertRec_idem (sink : List Rec) (r : Rec) :
    upsertRec (upsertRec sink r).1 r = ((upsertRec sink r).1, false) := by
  induction sink with
  | nil => simp [upsertRec, mergeDoc_self]
  | cons d s ih =>
    by_cases hd : d.report_number = r.report_number
    · simp [upsertRec, hd, mergeDoc_report_number, mergeDoc_absorb]
    · simp [upsertRec, hd, ih]

/-! ## Claim C1: Upsert Sink semantics -/

/-- C1, counterexample: the upsert is not a full-document replacement.  A
stored document with an extra field `"extra"` keeps that field after a
record without it is upserted onto the same `report_number`, because
`UpdateOne` with `$set` is a field-wise merge. -/
theorem C1_full_replacement_refuted :
    ¬ fullReplacement [⟨"r1", none, [("extra", "x")]⟩] ⟨"r1", none, []⟩ := by
  intro h
  have h2 := h ⟨"r1", none, [("extra", "x")]⟩ (by decide) "extra"
  exact absurd h2 (by decide)

/-- C1 (amended): the Upsert Sink keys each record by `report_number`; a
record whose key is absent is inserted as given, and a record whose key is
present is applied as a field-wise `$set` merge-patch — every field of the
new record receives its new value, while stored fields absent from the new
record keep their stored values — so re-ingesting an identical record is a
no-op for already-present keys (and counts no insert). -/
theorem C1_upsert_keyed_set_merge (sink : List Rec) (r : Rec) :
    (getDoc sink r.report_number = none →
      upsertRec sink r = (sink ++ [r], true)) ∧
    (∀ old, getDoc sink r.report_number = some old →
      (upsertRec sink r).2 = false ∧
      getDoc (upsertRec sink r).1 r.report_number = some (mergeDoc old r) ∧
      (∀ f v, lookupF r.fields f = some v →
        lookupF (mergeDoc old r).fields f = some v) ∧
      (∀ f, lookupF r.fields f = none →
        lookupF (mergeDoc old r).fields f = lookupF old.fields f)) ∧
    upsertRec (upsertRec sink r).1 r = ((upsertRec sink r).1, false) := by
  refine ⟨upsertRec_not_mem sink r, ?_, upsertRec_idem sink r⟩
  intro old hold
  refine ⟨(upsertRec_mem sink r old hold).1, (upsertRec_mem sink r old hold).2, ?_, ?_⟩
  · intro f v hv
    rw [show (mergeDoc old r).fields = mergeFields old.fields r.fields from rfl,
      mergeFields_lookup, hv]
  · intro f hv
    rw [show (mergeDoc old r).fields = mergeFields old.fields r.fields from rfl,
      mergeFields_lookup, hv]

/-- C1, witness: the amended upsert semantics evaluated on a concrete sink
and record, for an absent key, a present key and a re-ingestion. -/
theorem C1_upsert_keyed_set_merge_witness :
    upsertRec [⟨"r1", none, [("extra", "x")]⟩] ⟨"r2", some (3, 0), []⟩ =
      ([⟨"r1", none, [("extra", "x")]⟩, ⟨"r2", some (3, 0), []⟩], true) ∧
    (upsertRec [⟨"r1", none, [("extra", "x")]⟩] ⟨"r1", none, [("f", "1")]⟩).2 = false ∧
    lookupF (mergeDoc ⟨"r1", none, [("extra", "x")]⟩ ⟨"r1", none, [("f", "1")]⟩).fields "f" =
      some "1" ∧
    lookupF (mergeDoc ⟨"r1", none, [("extra", "x")]⟩ ⟨"r1", none, [("f", "1")]⟩).fields "extra" =
      lookupF [("extra", "x")] "extra" := by
  refine ⟨(C1_upsert_keyed_set_merge [⟨"r1", none, [("extra", "x")]⟩] ⟨"r2", some (3, 0), []⟩).1
      (by decide), ?_, ?_, ?_⟩
  · exact (((C1_upsert_keyed_set_merge [⟨"r1", none, [("extra", "x")]⟩]
      ⟨"r1", none, [("f", "1")]⟩).2.1 ⟨"r1", none, [("extra", "x")]⟩ (by decide)).1)
  · exact (((C1_upsert_keyed_set_merge [⟨"r1", none, [("extra", "x")]⟩]
      ⟨"r1", none, [("f", "1")]⟩).2.1 ⟨"r1", none, [("extra", "x")]⟩ (by decide)).2.2.1 "f" "1"
      (by decide))
  · exact (((C1_upsert_keyed_set_merge [⟨"r1", none, [("extra", "x")]⟩]
      ⟨"r1", none, [("f", "1")]⟩).2.1 ⟨"r1", none, [("extra", "x")]⟩ (by decide)).2.2.2 "extra"
      (by decide))

/-! ## Helper lemmas: the page loop under a fault-free transport -/

theorem dayPagesGo_noFail_flatten (d : Nat) :
    ∀ fuel (l : List Rec) (off : Nat), l.length < fuel →
      (dayPagesGo noFail d fuel l off).2.1.flatten = l := by
  intro fuel
  induction fuel with
  | zero => intro l off h; omega
  | succ n ih =>
    intro l off h
    by_cases hl : l = []
    · subst hl; simp [dayPagesGo, noFail]
    · have hlen : (l.drop batchSize).length < n := by
        have h1 : l.length ≠ 0 := fun hz => hl (List.eq_nil_of_length_eq_zero hz)
        simp only [List.length_drop, batchSize]
        omega
      simp only [dayPagesGo, noFail, Bool.false_eq_true, if_false, hl, if_neg,
        List.flatten_cons]
      rw [ih (l.drop batchSize) (off + batchSize) hlen]
      exact List.take_append_drop batchSize l

theorem dayPagesGo_noFail_not_aborted (d : Nat) :
    ∀ fuel (l : List Rec) (off : Nat), l.length < fuel →
      (dayPagesGo noFail d fuel l off).2.2 = false := by
  intro fuel
  induction fuel with
  | zero => intro l off h; omega
  | succ n ih =>
    intro l off h
    by_cases hl : l = []
    · subst hl; simp [dayPagesGo, noFail]
    · have hlen : (l.drop batchSize).length < n := by
        have h1 : l.length ≠ 0 := fun hz => hl (List.eq_nil_of_length_eq_zero hz)
        simp only [List.length_drop, batchSize]
        omega
      simp only [dayPagesGo, noFail, Bool.false_eq_true, if_false, hl, if_neg]
      exact ih (l.drop batchSize) (off + batchSize) hlen

theorem dayPagesGo_noFail_pages_ne (d : Nat) :
    ∀ fuel (l : List Rec) (off : Nat), l.length < fuel →
      ∀ b ∈ (dayPagesGo noFail d fuel l off).2.1, b ≠ [] := by
  intro fuel
  induction fuel with
  | zero => intro l off h; omega
  | succ n ih =>
    intro l off h
    by_cases hl : l = []
    · subst hl; simp [dayPagesGo, noFail]
    · have hlen : (l.drop batchSize).length < n := by
        have h1 : l.length ≠ 0 := fun hz => hl (List.eq_nil_of_length_eq_zero hz)
        simp only [List.length_drop, batchSize]
        omega
      simp only [dayPagesGo, noFail, Bool.false_eq_true, if_false, hl, if_neg,
        List.mem_cons]
      intro b hb
      rcases hb with hb | hb
      · subst hb
        simp only [ne_eq, List.take_eq_nil_iff, batchSize]
        push_neg
        exact ⟨by omega, hl⟩
      · exact ih (l.drop batchSize) (off + batchSize) hlen b hb

theorem dayPagesGo_noFail_requests (d : Nat) :
    ∀ fuel (l : List Rec) (off : Nat), l.length < fuel →
      (dayPagesGo noFail d fuel l off).1 =
        (List.range ((l.length + (batchSize - 1)) / batchSize + 1)).map
          (fun i => (d, off + i * batchSize)) := by
  intro fuel
  induction fuel with
  | zero => intro l off h; omega
  | succ n ih =>
    intro l off h
    by_cases hl : l = []
    · subst hl
      have hr : List.range 1 = [0] := rfl
      simp [dayPagesGo, noFail, batchSize, hr]
    · have h1 : l.length ≠ 0 := fun hz => hl (List.eq_nil_of_length_eq_zero hz)
      have hlen : (l.drop batchSize).length < n := by
        simp only [List.length_drop, batchSize]; omega
      simp only [dayPagesGo, noFail, Bool.false_eq_true, if_false, hl, if_neg]
      rw [ih (l.drop batchSize) (off + batchSize) hlen]
      have hcount : (l.length + (batchSize - 1)) / batchSize + 1 =
          (((l.drop batchSize).length + (batchSize - 1)) / batchSize + 1) + 1 := by
        simp only [List.length_drop, batchSize]
        omega
      rw [hcount]
      conv_rhs => rw [List.range_succ_eq_map]
      simp only [List.map_cons, List.map_map, Nat.zero_mul, Nat.add_zero]
      congr 1
      apply List.map_congr_left
      intro i _
      simp only [Function.comp_apply]
      congr 1
      simp only [Nat.succ_eq_add_one, Nat.mul_add, Nat.mul_one]
      ring

/-! ## Helper lemmas: the ascending order of a day's response -/

theorem mem_insertByTs (r x : Rec) : ∀ (l : List Rec),
    x ∈ insertByTs r l ↔ x = r ∨ x ∈ l := by
  intro l
  induction l with
  | nil => simp [insertByTs]
  | cons y ys ih =>
    unfold insertByTs
    by_cases hle : tsLe r y = true
    · rw [if_pos hle]
      simp [List.mem_cons]
    · rw [if_neg hle]
      simp only [List.mem_cons, ih]
      tauto

theorem perm_insertByTs (r : Rec) : ∀ (l : List Rec),
    (insertByTs r l).Perm (r :: l) := by
  intro l
  induction l with
  | nil => exact List.Perm.refl _
  | cons y ys ih =>
    unfold insertByTs
    by_cases hle : tsLe r y = true
    · rw [if_pos hle]
    · rw [if_neg hle]
      exact (ih.cons y).trans (List.Perm.swap r y ys)

theorem perm_sortByTs : ∀ (l : List Rec), (sortByTs l).Perm l := by
  intro l
  induction l with
  | nil => exact List.Perm.refl _
  | cons y ys ih =>
    exact (perm_insertByTs y (sortByTs ys)).trans (ih.cons y)

theorem tsLe_total (a b : Rec) : tsLe a b = true ∨ tsLe b a = true := by
  unfold tsLe
  rcases a.offense_ts with _ | ⟨d1, m1⟩
  · left
    rfl
  · rcases b.offense_ts with _ | ⟨d2, m2⟩
    · right
      rfl
    · simp only [Bool.or_eq_true, Bool.and_eq_true, decide_eq_true_eq, beq_iff_eq]
      omega

theorem tsLe_trans (a b c : Rec) (h1 : tsLe a b = true) (h2 : tsLe b c = true) :
    tsLe a c = true := by
  unfold tsLe at h1 h2 ⊢
  cases ha : a.offense_ts with
  | none => rfl
  | some t1 =>
    cases hb : b.offense_ts with
    | none =>
      rw [ha, hb] at h1
      exact Bool.noConfusion h1
    | some t2 =>
      cases hc : c.offense_ts with
      | none =>
        rw [hb, hc] at h2
        exact Bool.noConfusion h2
      | some t3 =>
        rw [ha, hb] at h1
        rw [hb, hc] at h2
        obtain ⟨d1, m1⟩ := t1
        obtain ⟨d2, m2⟩ := t2
        obtain ⟨d3, m3⟩ := t3
        simp only [Bool.or_eq_true, Bool.and_eq_true, decide_eq_true_eq,
          beq_iff_eq] at h1 h2 ⊢
        omega

theorem pairwise_insertByTs (r : Rec) : ∀ (l : List Rec),
    l.Pairwise (fun a b => tsLe a b = true) →
    (insertByTs r l).Pairwise (fun a b => tsLe a b = true) := by
  intro l
  induction l with
  | nil =>
    intro _
    simp [insertByTs]
  | cons x xs ih =>
    intro h
    rw [List.pairwise_cons] at h
    unfold insertByTs
    by_cases hle : tsLe r x = true
    · rw [if_pos hle, List.pairwise_cons]
      constructor
      · intro y hy
        rcases List.mem_cons.1 hy with hy | hy
        · exact hy ▸ hle
        · exact tsLe_trans r x y hle (h.1 y hy)
      · rw [List.pairwise_cons]
        exact ⟨h.1, h.2⟩
    · rw [if_neg hle, List.pairwise_cons]
      constructor
      · intro y hy
        rw [mem_insertByTs] at hy
        rcases hy with hy | hy
        · rw [hy]
          rcases tsLe_total r x with h2 | h2
          · exact absurd h2 hle
          · exact h2
        · exact h.1 y hy
      · exact ih h.2

theorem pairwise_sortByTs : ∀ (l : List Rec),
    (sortByTs l).Pairwise (fun a b => tsLe a b = true) := by
  intro l
  induction l with
  | nil => exact List.Pairwise.nil
  | cons y ys ih => exact pairwise_insertByTs y (sortByTs ys) ih

/-! ## Claim C5: Paginated Fetcher -/

/-- C5, counterexample: a record whose occurrence timestamp has fractional
seconds beyond `23:59:59.000` (here `23:59:59.500`, i.e. millisecond
86399500 of its day) lies within the day's full 24-hour window but is
retrieved by no page of that day, because the issued query window ends at
the second-precision bound `23:59:59`. -/
theorem C5_full_window_refuted :
    ¬ (∀ r ∈ ([⟨"C", some (20089, 86399500), []⟩] : List Rec),
        inFullDayWindow 20089 r = true →
        r ∈ (dayPages noFail 20089
            (matchingRecords [⟨"C", some (20089, 86399500), []⟩] 20089) 0).2.1.flatten) := by
  decide

/-- C5 (amended): for each requested date `d` the Paginated Fetcher
retrieves, under a fault-free transport, exactly the records whose
occurrence timestamp falls within `[d 00:00:00, d 23:59:59]` (records with
fractional seconds after 23:59:59.000 fall outside the issued window), by
requesting fixed 1000-record pages at offsets `0, 1000, 2000, ...`,
ordered ascending by occurrence timestamp, stopping the page loop for that
date exactly when a page returns zero records: the concatenated pages are
the day's full response, a permutation of the window-filtered remote
records served in ascending timestamp order; every retrieved page is
nonempty, and the one extra request is the empty page that ends the
loop. -/
theorem C5_paginated_day_fetch (remote : List Rec) (d : Nat) :
    (dayPages noFail d (matchingRecords remote d) 0).2.1.flatten =
      matchingRecords remote d ∧
    (dayPages noFail d (matchingRecords remote d) 0).2.2 = false ∧
    (dayPages noFail d (matchingRecords remote d) 0).1 =
      (List.range (((matchingRecords remote d).length + (batchSize - 1)) / batchSize + 1)).map
        (fun i => (d, i * batchSize)) ∧
    (∀ b ∈ (dayPages noFail d (matchingRecords remote d) 0).2.1, b ≠ []) ∧
    (matchingRecords remote d).Perm (remote.filter (inQueryWindow d)) ∧
    (matchingRecords remote d).Pairwise (fun a b => tsLe a b = true) := by
  refine ⟨dayPagesGo_noFail_flatten d _ _ 0 (Nat.lt_succ_self _),
    dayPagesGo_noFail_not_aborted d _ _ 0 (Nat.lt_succ_self _), ?_,
    dayPagesGo_noFail_pages_ne d _ _ 0 (Nat.lt_succ_self _),
    perm_sortByTs (remote.filter (inQueryWindow d)),
    pairwise_sortByTs (remote.filter (inQueryWindow d))⟩
  rw [show dayPages noFail d (matchingRecords remote d) 0 =
    dayPagesGo noFail d ((matchingRecords remote d).length + 1)
      (matchingRecords remote d) 0 from rfl,
    dayPagesGo_noFail_requests d _ _ 0 (Nat.lt_succ_self _)]
  simp

/-- C5, witness: the amended pagination contract evaluated on a concrete
remote dataset: day 5 has two matching records (one other record sits on
day 6, one at millisecond 86399000 — the last queried instant), served in
ascending timestamp order (the raw remote lists them descending), fetched
in one nonempty page followed by the terminating empty request. -/
theorem C5_paginated_day_fetch_witness :
    (dayPages noFail 5 (matchingRecords
        [⟨"C", some (5, 86399000), []⟩, ⟨"B", some (6, 0), []⟩, ⟨"A", some (5, 0), []⟩] 5) 0).2.1.flatten =
      matchingRecords
        [⟨"C", some (5, 86399000), []⟩, ⟨"B", some (6, 0), []⟩, ⟨"A", some (5, 0), []⟩] 5 ∧
    (dayPages noFail 5 (matchingRecords
        [⟨"C", some (5, 86399000), []⟩, ⟨"B", some (6, 0), []⟩, ⟨"A", some (5, 0), []⟩] 5) 0).1 =
      [(5, 0), (5, 1000)] ∧
    matchingRecords
        [⟨"C", some (5, 86399000), []⟩, ⟨"B", some (6, 0), []⟩, ⟨"A", some (5, 0), []⟩] 5 =
      [⟨"A", some (5, 0), []⟩, ⟨"C", some (5, 86399000), []⟩] := by
  refine ⟨?_, ?_, by decide⟩
  · exact (C5_paginated_day_fetch
      [⟨"C", some (5, 86399000), []⟩, ⟨"B", some (6, 0), []⟩, ⟨"A", some (5, 0), []⟩] 5).1
  · rw [(C5_paginated_day_fetch
      [⟨"C", some (5, 86399000), []⟩, ⟨"B", some (6, 0), []⟩, ⟨"A", some (5, 0), []⟩] 5).2.2.1]
    decide

/-! ## Helper lemmas: the fetch loops under transport faults -/

theorem dayPagesGo_abort_shape (failAt : Nat → Nat → Bool) (d : Nat) :
    ∀ fuel (l : List Rec) (off : Nat), l.length < fuel →
      (dayPagesGo failAt d fuel l off).2.2 = true →
      ∃ qs q, (dayPagesGo failAt d fuel l off).1 = qs ++ [q] ∧
        failAt q.1 q.2 = true ∧ ∀ p ∈ qs, failAt p.1 p.2 = false := by
  intro fuel
  induction fuel with
  | zero => intro l off h; omega
  | succ n ih =>
    intro l off h hab
    by_cases hf : failAt d off = true
    · exact ⟨[], (d, off), by simp [dayPagesGo, hf], hf, by simp⟩
    · by_cases hl : l = []
      · simp [dayPagesGo, hf, hl] at hab
      · have h1 : l.length ≠ 0 := fun hz => hl (List.eq_nil_of_length_eq_zero hz)
        have hlen : (l.drop batchSize).length < n := by
          simp only [List.length_drop, batchSize]; omega
        have hab' : (dayPagesGo failAt d n (l.drop batchSize) (off + batchSize)).2.2 = true := by
          simpa [dayPagesGo, hf, hl] using hab
        obtain ⟨qs, q, hq1, hq2, hq3⟩ :=
          ih (l.drop batchSize) (off + batchSize) hlen hab'
        refine ⟨(d, off) :: qs, q, ?_, hq2, ?_⟩
        · simp [dayPagesGo, hf, hl, hq1]
        · intro p hp
          rcases List.mem_cons.1 hp with hp | hp
          · subst hp
            exact Bool.eq_false_iff.2 hf
          · exact hq3 p hp

theorem dayPagesGo_no_abort_requests (failAt : Nat → Nat → Bool) (d : Nat) :
    ∀ fuel (l : List Rec) (off : Nat), l.length < fuel →
      (dayPagesGo failAt d fuel l off).2.2 = false →
      ∀ p ∈ (dayPagesGo failAt d fuel l off).1, failAt p.1 p.2 = false := by
  intro fuel
  induction fuel with
  | zero => intro l off h; omega
  | succ n ih =>
    intro l off h hab p hp
    by_cases hf : failAt d off = true
    · simp [dayPagesGo, hf] at hab
    · by_cases hl : l = []
      · simp [dayPagesGo, hf, hl] at hp
        subst hp
        exact Bool.eq_false_iff.2 hf
      · have h1 : l.length ≠ 0 := fun hz => hl (List.eq_nil_of_length_eq_zero hz)
        have hlen : (l.drop batchSize).length < n := by
          simp only [List.length_drop, batchSize]; omega
        have hab' : (dayPagesGo failAt d n (l.drop batchSize) (off + batchSize)).2.2 = false := by
          simpa [dayPagesGo, hf, hl] using hab
        simp only [dayPagesGo, hf, hl, Bool.false_eq_true, if_false, if_neg,
          List.mem_cons] at hp
        rcases hp with hp | hp
        · subst hp
          exact Bool.eq_false_iff.2 hf
        · exact ih (l.drop batchSize) (off + batchSize) hlen hab' p hp

theorem dayPagesGo_batches_pages (failAt : Nat → Nat → Bool) (d : Nat) (M : List Rec) :
    ∀ fuel (off : Nat), (M.drop off).length < fuel →
      ∀ b ∈ (dayPagesGo failAt d fuel (M.drop off) off).2.1,
        ∃ o, (d, o) ∈ (dayPagesGo failAt d fuel (M.drop off) off).1 ∧
          failAt d o = false ∧ b = (M.drop o).take batchSize ∧ b ≠ [] := by
  intro fuel
  induction fuel with
  | zero => intro off h; omega
  | succ n ih =>
    intro off h b hb
    by_cases hf : failAt d off = true
    · simp [dayPagesGo, hf] at hb
    · by_cases hl : M.drop off = []
      · simp [dayPagesGo, hf, hl] at hb
      · have h1 : (M.drop off).length ≠ 0 :=
          fun hz => hl (List.eq_nil_of_length_eq_zero hz)
        have hdd : (M.drop off).drop batchSize = M.drop (off + batchSize) := by
          rw [List.drop_drop, Nat.add_comm]
        have hlen : (M.drop (off + batchSize)).length < n := by
          simp only [List.length_drop, batchSize] at h h1 ⊢
          omega
        simp only [dayPagesGo, hf, hl, Bool.false_eq_true, if_false, if_neg,
          List.mem_cons] at hb
        rw [hdd] at hb
        rcases hb with hb | hb
        · refine ⟨off, ?_, Bool.eq_false_iff.2 hf, hb, ?_⟩
          · simp [dayPagesGo, hf, hl]
          · subst hb
            simp only [ne_eq, List.take_eq_nil_iff, batchSize]
            push_neg
            exact ⟨by omega, hl⟩
        · obtain ⟨o, ho1, ho2, ho3, ho4⟩ := ih (off + batchSize) hlen b hb
          refine ⟨o, ?_, ho2, ho3, ho4⟩
          simp only [dayPagesGo, hf, hl, Bool.false_eq_true, if_false, if_neg,
            List.mem_cons]
          rw [hdd]
          exact Or.inr ho1

theorem dayPages_abort_shape (failAt : Nat → Nat → Bool) (d : Nat) (M : List Rec)
    (hab : (dayPages failAt d M 0).2.2 = true) :
    ∃ qs q, (dayPages failAt d M 0).1 = qs ++ [q] ∧
      failAt q.1 q.2 = true ∧ ∀ p ∈ qs, failAt p.1 p.2 = false :=
  dayPagesGo_abort_shape failAt d (M.length + 1) M 0 (Nat.lt_succ_self _) hab

theorem dayPages_no_abort_requests (failAt : Nat → Nat → Bool) (d : Nat) (M : List Rec)
    (hab : (dayPages failAt d M 0).2.2 = false) :
    ∀ p ∈ (dayPages failAt d M 0).1, failAt p.1 p.2 = false :=
  dayPagesGo_no_abort_requests failAt d (M.length + 1) M 0 (Nat.lt_succ_self _) hab

theorem dayPages_batches_pages (failAt : Nat → Nat → Bool) (d : Nat) (M : List Rec) :
    ∀ b ∈ (dayPages failAt d M 0).2.1,
      ∃ o, (d, o) ∈ (dayPages failAt d M 0).1 ∧ failAt d o = false ∧
        b = (M.drop o).take batchSize ∧ b ≠ [] := by
  have h := dayPagesGo_batches_pages failAt d M (M.length + 1) 0
  simp only [List.drop_zero] at h
  exact h (Nat.lt_succ_self _)

theorem daysGo_abort_shape (failAt : Nat → Nat → Bool) (remote : List Rec) :
    ∀ (n current : Nat), (daysGo failAt remote current n).2.2 = true →
      ∃ qs q, (daysGo failAt remote current n).1 = qs ++ [q] ∧
        failAt q.1 q.2 = true ∧ ∀ p ∈ qs, failAt p.1 p.2 = false := by
  intro n
  induction n with
  | zero => intro c hab; simp [daysGo] at hab
  | succ m ih =>
    intro c hab
    by_cases hd : (dayPages failAt c (matchingRecords remote c) 0).2.2 = true
    · rw [show daysGo failAt remote c (m + 1) =
        dayPages failAt c (matchingRecords remote c) 0 by simp [daysGo, hd]]
      exact dayPages_abort_shape failAt c (matchingRecords remote c) hd
    · have hab' : (daysGo failAt remote (c + 1) m).2.2 = true := by
        simpa [daysGo, hd] using hab
      obtain ⟨qs, q, hq1, hq2, hq3⟩ := ih (c + 1) hab'
      refine ⟨(dayPages failAt c (matchingRecords remote c) 0).1 ++ qs, q, ?_, hq2, ?_⟩
      · simp [daysGo, hd, hq1]
      · intro p hp
        rcases List.mem_append.1 hp with hp | hp
        · exact dayPages_no_abort_requests failAt c (matchingRecords remote c)
            (Bool.eq_false_iff.2 hd) p hp
        · exact hq3 p hp

theorem daysGo_batches_pages (failAt : Nat → Nat → Bool) (remote : List Rec) :
    ∀ (n current : Nat), ∀ b ∈ (daysGo failAt remote current n).2.1,
      ∃ dd o, (dd, o) ∈ (daysGo failAt remote current n).1 ∧ failAt dd o = false ∧
        b = ((matchingRecords remote dd).drop o).take batchSize ∧ b ≠ [] := by
  intro n
  induction n with
  | zero => intro c b hb; simp [daysGo] at hb
  | succ m ih =>
    intro c b hb
    by_cases hd : (dayPages failAt c (matchingRecords remote c) 0).2.2 = true
    · rw [show daysGo failAt remote c (m + 1) =
        dayPages failAt c (matchingRecords remote c) 0 by simp [daysGo, hd]] at hb ⊢
      obtain ⟨o, ho1, ho2, ho3, ho4⟩ :=
        dayPages_batches_pages failAt c (matchingRecords remote c) b hb
      exact ⟨c, o, ho1, ho2, ho3, ho4⟩
    · simp only [daysGo, hd, Bool.false_eq_true, if_false, if_neg,
        List.mem_append] at hb ⊢
      rcases hb with hb | hb
      · obtain ⟨o, ho1, ho2, ho3, ho4⟩ :=
          dayPages_batches_pages failAt c (matchingRecords remote c) b hb
        exact ⟨c, o, Or.inl ho1, ho2, ho3, ho4⟩
      · obtain ⟨dd, o, ho1, ho2, ho3, ho4⟩ := ih (c + 1) b hb
        exact ⟨dd, o, Or.inr ho1, ho2, ho3, ho4⟩

/-! ## Claim C8: fail-fast error handling -/

/-- C8: when a page request gets a non-success response or transport error,
the whole run aborts with the error propagated: the failing request is the
last request issued (no in-run retry, nothing after it), every earlier
request succeeded, and the sink state and insert count reflect exactly the
fully retrieved pages — each durably written batch is a nonempty, fully
retrieved page of some successful request, and nothing from the failed
page is written. -/
theorem C8_fetch_error_aborts_run (failAt : Nat → Nat → Bool)
    (remote sink : List Rec) (today : Nat)
    (h : (fetch_crime_data failAt remote sink today).aborted = true) :
    (∃ qs q, (fetch_crime_data failAt remote sink today).requests = qs ++ [q] ∧
      failAt q.1 q.2 = true ∧ ∀ p ∈ qs, failAt p.1 p.2 = false) ∧
    (fetch_crime_data failAt remote sink today).sink =
      (upsertList sink (fetch_crime_data failAt remote sink today).batches.flatten).1 ∧
    (fetch_crime_data failAt remote sink today).inserted =
      (upsertList sink (fetch_crime_data failAt remote sink today).batches.flatten).2 ∧
    (∀ b ∈ (fetch_crime_data failAt remote sink today).batches,
      ∃ dd o, (dd, o) ∈ (fetch_crime_data failAt remote sink today).requests ∧
        failAt dd o = false ∧
        b = ((matchingRecords remote dd).drop o).take batchSize ∧ b ≠ []) := by
  by_cases hs : resolveStart sink > today
  · rw [fetch_crime_data, if_pos hs] at h
    simp at h
  · simp only [fetch_crime_data, daysLoop, if_neg hs] at h ⊢
    refine ⟨daysGo_abort_shape failAt remote (today + 1 - resolveStart sink)
        (resolveStart sink) h, ?_, ?_,
      daysGo_batches_pages failAt remote (today + 1 - resolveStart sink)
        (resolveStart sink)⟩ <;> trivial

/-- C8, witness: a transport that fails every request of day 20090
evaluated on a concrete run over days 20089-20090: day 20089's page is
retrieved and written, the failing request `(20090, 0)` is the last one
issued, and the sink reflects only the fully retrieved page. -/
theorem C8_fetch_error_aborts_run_witness :
    (∃ qs q, (fetch_crime_data (fun dd _ => dd == 20090)
        [⟨"A", some (20089, 0), []⟩] [] 20090).requests = qs ++ [q] ∧
      (fun (dd : Nat) (_ : Nat) => dd == 20090) q.1 q.2 = true ∧
      ∀ p ∈ qs, (fun (dd : Nat) (_ : Nat) => dd == 20090) p.1 p.2 = false) ∧
    (fetch_crime_data (fun dd _ => dd == 20090)
        [⟨"A", some (20089, 0), []⟩] [] 20090).sink =
      (upsertList [] (fetch_crime_data (fun dd _ => dd == 20090)
        [⟨"A", some (20089, 0), []⟩] [] 20090).batches.flatten).1 := by
  refine ⟨(C8_fetch_error_aborts_run (fun dd _ => dd == 20090)
      [⟨"A", some (20089, 0), []⟩] [] 20090 (by decide)).1,
    (C8_fetch_error_aborts_run (fun dd _ => dd == 20090)
      [⟨"A", some (20089, 0), []⟩] [] 20090 (by decide)).2.1⟩

/-! ## Claim C2: Checkpoint Resolver -/

/-- C2: the Checkpoint Resolver computes `start` as the maximum stored
offense day plus one when some stored record carries an `offense_date`,
and as the fixed epoch date `2025-01-01` when none does; and whenever
`start > today` the run issues no fetch request, performs no write, counts
no insert, and terminates normally (not aborted). -/
theorem C2_checkpoint_resolver (remote sink : List Rec) (today : Nat) :
    (∀ m, maxOffenseDay sink = some m → resolveStart sink = m + 1) ∧
    (maxOffenseDay sink = none → resolveStart sink = epochDay) ∧
    (resolveStart sink > today →
      fetch_crime_data noFail remote sink today = ⟨sink, 0, [], [], false⟩) := by
  refine ⟨?_, ?_, ?_⟩
  · intro m hm; simp [resolveStart, hm]
  · intro hm; simp [resolveStart, hm]
  · intro h; simp [fetch_crime_data, h]

/-- C2, witness: a sink whose maximal stored offense day is 30 resolves to
start 31; the empty sink resolves to the epoch; and with `today = 10 < 31`
the run returns the sink untouched with no requests and no inserts. -/
theorem C2_checkpoint_resolver_witness :
    resolveStart [⟨"A", some (30, 0), []⟩] = 31 ∧
    resolveStart [] = epochDay ∧
    fetch_crime_data noFail [⟨"B", some (5, 0), []⟩] [⟨"A", some (30, 0), []⟩] 10 =
      ⟨[⟨"A", some (30, 0), []⟩], 0, [], [], false⟩ := by
  refine ⟨(C2_checkpoint_resolver [] [⟨"A", some (30, 0), []⟩] 10).1 30 (by decide),
    (C2_checkpoint_resolver [] [] 10).2.1 (by decide),
    (C2_checkpoint_resolver [⟨"B", some (5, 0), []⟩] [⟨"A", some (30, 0), []⟩] 10).2.2
      (by decide)⟩

/-! ## Helper lemmas: batched upserts, keys and insert counts -/

theorem upsertList_append (s : List Rec) (A B : List Rec) :
    upsertList s (A ++ B) =
      ((upsertList (upsertList s A).1 B).1,
        (upsertList s A).2 + (upsertList (upsertList s A).1 B).2) := by
  induction A generalizing s with
  | nil => simp [upsertList]
  | cons r l ih =>
    simp only [List.cons_append, upsertList, List.append_eq]
    rw [ih (upsertRec s r).1]
    simp [Nat.add_assoc]

theorem getDoc_none_of_not_mem (s : List Rec) (k : String)
    (h : k ∉ sinkKeys s) : getDoc s k = none := by
  induction s with
  | nil => rfl
  | cons d t ih =>
    simp only [sinkKeys, List.map_cons, List.mem_cons] at h
    push_neg at h
    unfold getDoc
    rw [if_neg (fun he => h.1 he.symm)]
    exact ih (by simpa [sinkKeys] using h.2)

theorem getDoc_some_of_mem (s : List Rec) (k : String)
    (h : k ∈ sinkKeys s) : ∃ d, getDoc s k = some d := by
  induction s with
  | nil => simp [sinkKeys] at h
  | cons d t ih =>
    by_cases he : d.report_number = k
    · exact ⟨d, by simp [getDoc, he]⟩
    · simp only [sinkKeys, List.map_cons, List.mem_cons] at h
      rcases h with h | h
      · exact absurd h.symm he
      · obtain ⟨d2, hd2⟩ := ih (by simpa [sinkKeys] using h)
        exact ⟨d2, by simp [getDoc, he, hd2]⟩

theorem upsertRec_keys_present (s : List Rec) (r : Rec)
    (h : ∃ old, getDoc s r.report_number = some old) :
    sinkKeys (upsertRec s r).1 = sinkKeys s := by
  induction s with
  | nil => obtain ⟨old, hold⟩ := h; simp [getDoc] at hold
  | cons d t ih =>
    by_cases he : d.report_number = r.report_number
    · simp [upsertRec, he, sinkKeys, mergeDoc_report_number, he]
    · obtain ⟨old, hold⟩ := h
      unfold getDoc at hold
      rw [if_neg he] at hold
      have ht := ih ⟨old, hold⟩
      simp only [upsertRec, if_neg he, sinkKeys, List.map_cons] at ht ⊢
      rw [ht]

theorem upsertRec_keys_absent (s : List Rec) (r : Rec)
    (h : getDoc s r.report_number = none) :
    sinkKeys (upsertRec s r).1 = sinkKeys s ++ [r.report_number] := by
  rw [upsertRec_not_mem s r h]
  simp [sinkKeys]

theorem mem_keys_upsertRec (s : List Rec) (r : Rec) (k : String)
    (h : k ∈ sinkKeys s) : k ∈ sinkKeys (upsertRec s r).1 := by
  cases hg : getDoc s r.report_number with
  | none => rw [upsertRec_keys_absent s r hg]; exact List.mem_append_left _ h
  | some old => rw [upsertRec_keys_present s r ⟨old, hg⟩]; exact h

theorem self_mem_keys_upsertRec (s : List Rec) (r : Rec) :
    r.report_number ∈ sinkKeys (upsertRec s r).1 := by
  cases hg : getDoc s r.report_number with
  | none =>
    rw [upsertRec_keys_absent s r hg]
    exact List.mem_append_right _ (List.mem_singleton.2 rfl)
  | some old =>
    rw [upsertRec_keys_present s r ⟨old, hg⟩]
    by_contra hk
    rw [getDoc_none_of_not_mem s r.report_number hk] at hg
    cases hg

theorem mem_keys_upsertList (s : List Rec) (L : List Rec) (k : String)
    (h : k ∈ sinkKeys s) : k ∈ sinkKeys (upsertList s L).1 := by
  induction L generalizing s with
  | nil => exact h
  | cons r l ih =>
    simp only [upsertList]
    exact ih (upsertRec s r).1 (mem_keys_upsertRec s r k h)

theorem batch_mem_keys_upsertList (s : List Rec) (L : List Rec) (r : Rec)
    (h : r ∈ L) : r.report_number ∈ sinkKeys (upsertList s L).1 := by
  induction L generalizing s with
  | nil => cases h
  | cons q l ih =>
    simp only [upsertList]
    rcases List.mem_cons.1 h with h | h
    · subst h
      exact mem_keys_upsertList (upsertRec s r).1 l r.report_number
        (self_mem_keys_upsertRec s r)
    · exact ih (upsertRec s q).1 h

theorem upsertList_count_zero (s : List Rec) (L : List Rec)
    (h : ∀ r ∈ L, r.report_number ∈ sinkKeys s) :
    (upsertList s L).2 = 0 := by
  induction L generalizing s with
  | nil => rfl
  | cons r l ih =>
    simp only [upsertList]
    obtain ⟨old, hold⟩ := getDoc_some_of_mem s r.report_number (h r (List.mem_cons_self r l))
    rw [(upsertRec_mem s r old hold).1]
    simp only [if_false, Bool.false_eq_true, Nat.zero_add]
    exact ih (upsertRec s r).1 (fun q hq =>
      mem_keys_upsertRec s r q.report_number (h q (List.mem_cons_of_mem r hq)))

theorem upsertList_keys_saturated (s : List Rec) (L : List Rec)
    (h : ∀ r ∈ L, r.report_number ∈ sinkKeys s) :
    sinkKeys (upsertList s L).1 = sinkKeys s := by
  induction L generalizing s with
  | nil => rfl
  | cons r l ih =>
    simp only [upsertList]
    obtain ⟨old, hold⟩ := getDoc_some_of_mem s r.report_number (h r (List.mem_cons_self r l))
    have hk := upsertRec_keys_present s r ⟨old, hold⟩
    rw [ih (upsertRec s r).1 (fun q hq => by
      rw [hk]; exact h q (List.mem_cons_of_mem r hq)), hk]

theorem upsertRec_keys_nodup (s : List Rec) (r : Rec)
    (h : (sinkKeys s).Nodup) : (sinkKeys (upsertRec s r).1).Nodup := by
  cases hg : getDoc s r.report_number with
  | none =>
    rw [upsertRec_keys_absent s r hg]
    have hnm : r.report_number ∉ sinkKeys s := by
      intro hk
      obtain ⟨d, hd⟩ := getDoc_some_of_mem s r.report_number hk
      rw [hd] at hg
      cases hg
    rw [List.nodup_append]
    refine ⟨h, List.nodup_singleton _, ?_⟩
    intro k hk hk2
    rw [List.mem_singleton] at hk2
    subst hk2
    exact hnm hk
  | some old =>
    rw [upsertRec_keys_present s r ⟨old, hg⟩]
    exact h

theorem upsertList_keys_nodup (s : List Rec) (L : List Rec)
    (h : (sinkKeys s).Nodup) : (sinkKeys (upsertList s L).1).Nodup := by
  induction L generalizing s with
  | nil => exact h
  | cons r l ih => exact ih (upsertRec s r).1 (upsertRec_keys_nodup s r h)

/-! ## Helper lemmas: per-key view of batched upserts -/

theorem getDoc_upsertRec (s : List Rec) (r : Rec) (k : String) :
    getDoc (upsertRec s r).1 k =
      if r.report_number = k then some (applyRec (getDoc s k) r)
      else getDoc s k := by
  induction s with
  | nil =>
    by_cases hk : r.report_number = k
    · simp [upsertRec, getDoc, hk, applyRec]
    · simp [upsertRec, getDoc, hk]
  | cons d t ih =>
    by_cases hd : d.report_number = r.report_number
    · by_cases hk : r.report_number = k
      · have hdk : d.report_number = k := hd.trans hk
        simp only [upsertRec, if_pos hd, getDoc, mergeDoc_report_number,
          if_pos hk, if_pos hdk, applyRec]
      · have hdk : ¬ d.report_number = k := fun he => hk (hd.symm.trans he)
        simp only [upsertRec, if_pos hd, getDoc, mergeDoc_report_number,
          if_neg hk, if_neg hdk]
    · by_cases hdk : d.report_number = k
      · have hk : ¬ r.report_number = k := fun he => hd (hdk.trans he.symm)
        simp only [upsertRec, if_neg hd, getDoc, if_pos hdk, if_neg hk]
      · simp only [upsertRec, if_neg hd, getDoc, if_neg hdk, ih]

theorem getDoc_upsertList (s : List Rec) (L : List Rec) (k : String) :
    getDoc (upsertList s L).1 k = applyList (getDoc s k) (keyFilter L k) := by
  induction L generalizing s with
  | nil => rfl
  | cons r l ih =>
    simp only [upsertList]
    rw [ih (upsertRec s r).1, getDoc_upsertRec]
    by_cases hk : r.report_number = k
    · have hd : decide (r.report_number = k) = true := by simp [hk]
      rw [if_pos hk,
        show keyFilter (r :: l) k = r :: keyFilter l k from by
          simp [keyFilter, List.filter_cons, hd]]
      rfl
    · have hd : decide (r.report_number = k) = false := by simpa using hk
      rw [if_neg hk,
        show keyFilter (r :: l) k = keyFilter l k from by
          simp [keyFilter, List.filter_cons, hd]]

/-! ## Helper lemmas: convergence of repeated `$set` merges -/

theorem mergeList_cons (d r : Rec) (m : List Rec) :
    mergeList d (r :: m) = mergeList (mergeDoc d r) m := rfl

theorem mergeDoc_ts (d r : Rec) :
    (mergeDoc d r).offense_ts = tsMerge r.offense_ts d.offense_ts := rfl

theorem mergeDoc_fields (d r : Rec) :
    (mergeDoc d r).fields = mergeFields d.fields r.fields := rfl

theorem fieldKeyFree_cons (r : Rec) (m : List Rec) (f : String) :
    fieldKeyFree (r :: m) f =
      ((lookupF r.fields f).isNone && fieldKeyFree m f) := by
  simp [fieldKeyFree]

theorem mergeList_filter (p : String → Bool) :
    ∀ (l : List Rec) (dcur : Rec),
      (∀ f, p f = true → fieldKeyFree l f = true) →
      (mergeList dcur l).fields.filter (fun e => p e.1) =
        dcur.fields.filter (fun e => p e.1) := by
  intro l
  induction l with
  | nil => intro dcur _; rfl
  | cons r m ih =>
    intro dcur h
    have hm : ∀ f, p f = true → fieldKeyFree m f = true := by
      intro f hf
      have h2 := h f hf
      rw [fieldKeyFree_cons, Bool.and_eq_true] at h2
      exact h2.2
    rw [mergeList_cons, ih (mergeDoc dcur r) hm, mergeDoc_fields]
    unfold mergeFields
    rw [List.filter_append]
    have h1 : r.fields.filter (fun e => p e.1) = [] := by
      rw [List.filter_eq_nil_iff]
      intro e he hpe
      have hfree := h e.1 hpe
      rw [fieldKeyFree_cons, Bool.and_eq_true] at hfree
      have h3 := hfree.1
      have h4 := lookupF_isSome_of_mem he
      rw [Option.isNone_iff_eq_none] at h3
      rw [h3] at h4
      cases h4
    rw [h1, List.nil_append, List.filter_filter]
    apply List.filter_congr
    intro e _
    cases hpe : p e.1
    · simp
    · have h5 := h e.1 hpe
      rw [fieldKeyFree_cons, Bool.and_eq_true] at h5
      simp [hpe, h5.1]

theorem mergeList_ts (l : List Rec) :
    ∀ dcur : Rec, (∀ r ∈ l, r.offense_ts = none) →
      (mergeList dcur l).offense_ts = dcur.offense_ts := by
  induction l with
  | nil => intro dcur _; rfl
  | cons r m ih =>
    intro dcur h
    rw [mergeList_cons, ih _ (fun q hq => h q (List.mem_cons_of_mem r hq)),
      mergeDoc_ts, h r (List.mem_cons_self r m)]
    rfl

theorem mergeList_converge :
    ∀ (l : List Rec) (d1 d2 : Rec), l ≠ [] →
      d1.fields.filter (fun e => fieldKeyFree l e.1) =
        d2.fields.filter (fun e => fieldKeyFree l e.1) →
      ((∀ r ∈ l, r.offense_ts = none) → d1.offense_ts = d2.offense_ts) →
      mergeList d1 l = mergeList d2 l := by
  intro l
  induction l with
  | nil => intro d1 d2 h; cases h rfl
  | cons r m ih =>
    intro d1 d2 _ hf hts
    by_cases hm : m = []
    · subst hm
      show mergeDoc d1 r = mergeDoc d2 r
      have hq : (fun (e : String × String) => fieldKeyFree [r] e.1) =
          (fun e => (lookupF r.fields e.1).isNone) := by
        funext e
        simp [fieldKeyFree]
      rw [hq] at hf
      unfold mergeDoc mergeFields
      rw [hf]
      cases hrts : r.offense_ts with
      | some t => rfl
      | none =>
        have hall : ∀ q ∈ ([r] : List Rec), q.offense_ts = none := by
          intro q hq2
          rw [List.mem_singleton.1 hq2, hrts]
        have hd12 : d1.offense_ts = d2.offense_ts := hts hall
        rw [show tsMerge none d1.offense_ts = d1.offense_ts from rfl,
          show tsMerge none d2.offense_ts = d2.offense_ts from rfl, hd12]
    · rw [mergeList_cons, mergeList_cons]
      apply ih (mergeDoc d1 r) (mergeDoc d2 r) hm
      · rw [mergeDoc_fields, mergeDoc_fields]
        unfold mergeFields
        rw [List.filter_append, List.filter_append, List.filter_filter,
          List.filter_filter]
        have hps : (fun (e : String × String) =>
            fieldKeyFree m e.1 && (lookupF r.fields e.1).isNone) =
            (fun e => fieldKeyFree (r :: m) e.1) := by
          funext e
          rw [fieldKeyFree_cons]
          exact Bool.and_comm _ _
        rw [hps, hf]
      · intro hmts
        rw [mergeDoc_ts, mergeDoc_ts]
        cases hrts : r.offense_ts with
        | some t => rfl
        | none =>
          have hall : ∀ q ∈ (r :: m), q.offense_ts = none := by
            intro q hq2
            rcases List.mem_cons.1 hq2 with h | h
            · rw [h, hrts]
            · exact hmts q h
          have hd12 : d1.offense_ts = d2.offense_ts := hts hall
          rw [show tsMerge none d1.offense_ts = d1.offense_ts from rfl,
            show tsMerge none d2.offense_ts = d2.offense_ts from rfl, hd12]

theorem mergeList_absorb (d : Rec) (l : List Rec) (hl : l ≠ []) :
    mergeList (mergeList d l) l = mergeList d l := by
  apply mergeList_converge l _ _ hl
  · exact mergeList_filter (fun f => fieldKeyFree l f) l d (fun _ hf => hf)
  · intro hts
    exact mergeList_ts l d hts

theorem applyList_some (d : Rec) (l : List Rec) :
    applyList (some d) l = some (mergeList d l) := by
  induction l generalizing d with
  | nil => rfl
  | cons r m ih => exact ih (mergeDoc d r)

theorem applyList_replay (od : Option Rec) (l : List Rec) :
    applyList (applyList od l) l = applyList od l := by
  cases l with
  | nil => rfl
  | cons r m =>
    cases od with
    | some d =>
      rw [show applyList (some d) (r :: m) = applyList (some (mergeDoc d r)) m from rfl,
        applyList_some, applyList_some]
      rw [show mergeList (mergeDoc d r) m = mergeList d (r :: m) from rfl]
      exact congrArg some (mergeList_absorb d (r :: m) (by simp))
    | none =>
      rw [show applyList none (r :: m) = applyList (some r) m from rfl, applyList_some,
        applyList_some]
      apply congrArg some
      have h1 : mergeList r (r :: m) = mergeList r m := by
        rw [mergeList_cons, mergeDoc_self]
      calc mergeList (mergeList r m) (r :: m)
          = mergeList r (r :: m) := by
            apply mergeList_converge (r :: m) _ _ (by simp)
            · apply mergeList_filter (fun f => fieldKeyFree (r :: m) f) m r
              intro f hf
              have hf2 : fieldKeyFree (r :: m) f = true := hf
              rw [fieldKeyFree_cons, Bool.and_eq_true] at hf2
              exact hf2.2
            · intro hts
              exact mergeList_ts m r (fun q hq => hts q (List.mem_cons_of_mem r hq))
        _ = mergeList r m := h1

/-! ## Helper lemmas: sink extensionality and replay of a batch -/

theorem sink_ext : ∀ (s1 s2 : List Rec),
    sinkKeys s1 = sinkKeys s2 → (sinkKeys s1).Nodup →
    (∀ k, getDoc s1 k = getDoc s2 k) → s1 = s2 := by
  intro s1
  induction s1 with
  | nil =>
    intro s2 hk _ _
    cases s2 with
    | nil => rfl
    | cons d t => simp [sinkKeys] at hk
  | cons d1 t1 ih =>
    intro s2 hk hnd hg
    cases s2 with
    | nil => simp [sinkKeys] at hk
    | cons d2 t2 =>
      simp only [sinkKeys, List.map_cons, List.cons.injEq] at hk
      have hd : d1 = d2 := by
        have h1 := hg d1.report_number
        unfold getDoc at h1
        rw [if_pos rfl, if_pos hk.1.symm] at h1
        cases h1
        rfl
      subst hd
      have hnd2 : (sinkKeys t1).Nodup :=
        (List.nodup_cons.1 (by simpa [sinkKeys] using hnd)).2
      have hnm : d1.report_number ∉ sinkKeys t1 :=
        (List.nodup_cons.1 (by simpa [sinkKeys] using hnd)).1
      have hg1 : ∀ k, getDoc t1 k = getDoc t2 k := by
        intro k
        by_cases hke : d1.report_number = k
        · subst hke
          have hkt : sinkKeys t2 = sinkKeys t1 := by
            have h3 : sinkKeys t1 = sinkKeys t2 := by simpa [sinkKeys] using hk.2
            exact h3.symm
          have hnm2 : d1.report_number ∉ sinkKeys t2 := by rw [hkt]; exact hnm
          rw [getDoc_none_of_not_mem t1 _ hnm, getDoc_none_of_not_mem t2 _ hnm2]
        · have h2 := hg k
          unfold getDoc at h2
          rw [if_neg hke, if_neg hke] at h2
          exact h2
      rw [ih t2 (by simpa [sinkKeys] using hk.2) hnd2 hg1]

theorem upsertList_replay (s : List Rec) (L : List Rec)
    (h : (sinkKeys s).Nodup) :
    upsertList (upsertList s L).1 L = ((upsertList s L).1, 0) := by
  have hkeys : ∀ r ∈ L, r.report_number ∈ sinkKeys (upsertList s L).1 :=
    fun r hr => batch_mem_keys_upsertList s L r hr
  have hcount := upsertList_count_zero (upsertList s L).1 L hkeys
  have hsat := upsertList_keys_saturated (upsertList s L).1 L hkeys
  have hnd := upsertList_keys_nodup s L h
  have hext : (upsertList (upsertList s L).1 L).1 = (upsertList s L).1 := by
    apply sink_ext _ _ hsat (by rw [hsat]; exact hnd)
    intro k
    rw [getDoc_upsertList (upsertList s L).1 L k, getDoc_upsertList s L k,
      applyList_replay]
  rw [Prod.ext_iff]
  exact ⟨hext, hcount⟩

/-! ## Helper lemmas: the fault-free run as one batched upsert -/

theorem daysGo_noFail (remote : List Rec) : ∀ (n current : Nat),
    (daysGo noFail remote current n).2.1.flatten = dayRecordsGo remote current n ∧
    (daysGo noFail remote current n).2.2 = false := by
  intro n
  induction n with
  | zero => intro c; exact ⟨rfl, rfl⟩
  | succ m ih =>
    intro c
    have hab : (dayPages noFail c (matchingRecords remote c) 0).2.2 = false :=
      dayPagesGo_noFail_not_aborted c _ _ 0 (Nat.lt_succ_self _)
    have hfl : (dayPages noFail c (matchingRecords remote c) 0).2.1.flatten =
        matchingRecords remote c :=
      dayPagesGo_noFail_flatten c _ _ 0 (Nat.lt_succ_self _)
    constructor
    · simp only [daysGo, hab, Bool.false_eq_true, if_false, if_neg,
        List.flatten_append]
      rw [(ih (c + 1)).1, hfl]
      rfl
    · simp only [daysGo, hab, Bool.false_eq_true, if_false, if_neg]
      exact (ih (c + 1)).2

theorem fetch_noFail_run (remote sink : List Rec) (today : Nat)
    (h : ¬ resolveStart sink > today) :
    fetch_crime_data noFail remote sink today =
      ⟨(upsertList sink (dayRecordsGo remote (resolveStart sink)
          (today + 1 - resolveStart sink))).1,
        (upsertList sink (dayRecordsGo remote (resolveStart sink)
          (today + 1 - resolveStart sink))).2,
        (daysLoop noFail remote (resolveStart sink) today).1,
        (daysLoop noFail remote (resolveStart sink) today).2.1,
        false⟩ := by
  simp only [fetch_crime_data, daysLoop, if_neg h]
  rw [(daysGo_noFail remote (today + 1 - resolveStart sink) (resolveStart sink)).1,
    (daysGo_noFail remote (today + 1 - resolveStart sink) (resolveStart sink)).2]

theorem dayRecordsGo_ts (remote : List Rec) : ∀ (n c : Nat),
    ∀ r ∈ dayRecordsGo remote c n, ∃ dd ms, r.offense_ts = some (dd, ms) ∧
      c ≤ dd ∧ dd < c + n := by
  intro n
  induction n with
  | zero => intro c r hr; cases hr
  | succ m ih =>
    intro c r hr
    rcases List.mem_append.1 hr with hr | hr
    · have hrf : r ∈ remote.filter (inQueryWindow c) :=
        (perm_sortByTs (remote.filter (inQueryWindow c))).mem_iff.1 hr
      have h2 := (List.mem_filter.1 hrf).2
      unfold inQueryWindow at h2
      cases hts : r.offense_ts with
      | none => rw [hts] at h2; cases h2
      | some t =>
        obtain ⟨td, tm⟩ := t
        rw [hts] at h2
        rw [Bool.and_eq_true] at h2
        have h3 : td = c := by simpa using h2.1
        subst h3
        exact ⟨td, tm, rfl, le_refl td, by omega⟩
    · obtain ⟨dd, ms, hts, hc, hlt⟩ := ih (c + 1) r hr
      exact ⟨dd, ms, hts, by omega, by omega⟩

theorem dayRecordsGo_split (remote : List Rec) : ∀ (a b c : Nat),
    dayRecordsGo remote c (a + b) =
      dayRecordsGo remote c a ++ dayRecordsGo remote (c + a) b := by
  intro a
  induction a with
  | zero =>
    intro b c
    simp [dayRecordsGo]
  | succ m ih =>
    intro b c
    have he : m + 1 + b = (m + b) + 1 := by omega
    rw [he]
    show matchingRecords remote c ++ dayRecordsGo remote (c + 1) (m + b) =
      (matchingRecords remote c ++ dayRecordsGo remote (c + 1) m) ++
        dayRecordsGo remote (c + (m + 1)) b
    rw [ih b (c + 1), List.append_assoc]
    have he2 : c + 1 + m = c + (m + 1) := by omega
    rw [he2]

theorem upsertRec_exists_ts (s : List Rec) (r : Rec) (t : Nat × Nat)
    (h : r.offense_ts = some t) :
    ∃ doc ∈ (upsertRec s r).1, doc.offense_ts = some t := by
  induction s with
  | nil => exact ⟨r, by simp [upsertRec], h⟩
  | cons d s2 ih =>
    by_cases hd : d.report_number = r.report_number
    · refine ⟨mergeDoc d r, by simp [upsertRec, hd], ?_⟩
      rw [mergeDoc_ts, h]
      rfl
    · obtain ⟨doc, hdoc, hts⟩ := ih
      refine ⟨doc, ?_, hts⟩
      simp only [upsertRec, if_neg hd]
      exact List.mem_cons_of_mem d hdoc

theorem upsertList_exists_day (c : Nat) : ∀ (L s : List Rec), L ≠ [] →
    (∀ r ∈ L, ∃ dd ms, r.offense_ts = some (dd, ms) ∧ c ≤ dd) →
    ∃ doc ∈ (upsertList s L).1, ∃ dd ms,
      doc.offense_ts = some (dd, ms) ∧ c ≤ dd := by
  intro L
  induction L with
  | nil => intro s h; cases h rfl
  | cons r l ih =>
    intro s _ hL
    by_cases hl : l = []
    · subst hl
      obtain ⟨dd, ms, hts, hc⟩ := hL r (List.mem_cons_self r [])
      obtain ⟨doc, hdoc, hdts⟩ := upsertRec_exists_ts s r (dd, ms) hts
      exact ⟨doc, hdoc, dd, ms, hdts, hc⟩
    · obtain ⟨doc, hdoc, dd, ms, hdts, hc⟩ :=
        ih (upsertRec s r).1 hl (fun q hq => hL q (List.mem_cons_of_mem r hq))
      exact ⟨doc, hdoc, dd, ms, hdts, hc⟩

theorem maxOffenseDay_ge_of_mem : ∀ (s : List Rec) (r : Rec) (d0 : Nat),
    r ∈ s → recDay r = some d0 →
    ∃ m, maxOffenseDay s = some m ∧ d0 ≤ m := by
  intro s
  induction s with
  | nil => intro r d0 hr; cases hr
  | cons q t ih =>
    intro r d0 hr hd
    rcases List.mem_cons.1 hr with hr | hr
    · subst hr
      cases hmt : maxOffenseDay t with
      | none =>
        refine ⟨d0, ?_, le_refl d0⟩
        unfold maxOffenseDay
        rw [hd, hmt]
      | some m0 =>
        refine ⟨max d0 m0, ?_, Nat.le_max_left _ _⟩
        unfold maxOffenseDay
        rw [hd, hmt]
    · obtain ⟨m0, hm0, hle⟩ := ih r d0 hr hd
      cases hq : recDay q with
      | none =>
        refine ⟨m0, ?_, hle⟩
        unfold maxOffenseDay
        rw [hq, hm0]
      | some q0 =>
        refine ⟨max q0 m0, ?_, le_trans hle (Nat.le_max_right _ _)⟩
        unfold maxOffenseDay
        rw [hq, hm0]

/-! ## Claim C3: ingestion idempotence -/

/-- C3: ingestion is idempotent.  For every remote dataset and every sink
state satisfying the data model's natural-key uniqueness invariant, running
the ingestion asset twice in succession against an unchanged remote dataset
inserts zero records on the second run and leaves the sink's contents
exactly as the first run left them. -/
theorem C3_ingestion_idempotent (remote sink : List Rec) (today : Nat)
    (hnd : (sinkKeys sink).Nodup) :
    (fetch_crime_data noFail remote
        (fetch_crime_data noFail remote sink today).sink today).inserted = 0 ∧
    (fetch_crime_data noFail remote
        (fetch_crime_data noFail remote sink today).sink today).sink =
      (fetch_crime_data noFail remote sink today).sink := by
  by_cases h1 : resolveStart sink > today
  · have e1 : fetch_crime_data noFail remote sink today = ⟨sink, 0, [], [], false⟩ := by
      simp [fetch_crime_data, h1]
    rw [e1, show (⟨sink, 0, [], [], false⟩ : RunResult).sink = sink from rfl, e1]
    exact ⟨rfl, rfl⟩
  · have e1 := fetch_noFail_run remote sink today h1
    have hs1e : (fetch_crime_data noFail remote sink today).sink =
        (upsertList sink (dayRecordsGo remote (resolveStart sink)
          (today + 1 - resolveStart sink))).1 := by
      rw [e1]
    rw [hs1e]
    set st1 := resolveStart sink with hst1
    set n1 := today + 1 - st1 with hn1
    set L := dayRecordsGo remote st1 n1 with hLdef
    set s1 := (upsertList sink L).1 with hs1
    have hLb : ∀ r ∈ L, ∃ dd ms, r.offense_ts = some (dd, ms) ∧ st1 ≤ dd := by
      intro r hr
      obtain ⟨dd, ms, hts, hc, _⟩ := dayRecordsGo_ts remote n1 st1 r hr
      exact ⟨dd, ms, hts, hc⟩
    have hst12 : st1 ≤ resolveStart s1 := by
      by_cases hLe : L = []
      · rw [hs1, hLe]
        exact le_of_eq hst1
      · obtain ⟨doc, hdoc, dd, ms, hdts, hddge⟩ :=
          upsertList_exists_day st1 L sink hLe hLb
        have hrd : recDay doc = some dd := by
          rw [recDay, hdts]
          rfl
        obtain ⟨m, hm, hle⟩ := maxOffenseDay_ge_of_mem s1 doc dd hdoc hrd
        have hres : resolveStart s1 = m + 1 := by rw [resolveStart, hm]
        rw [hres]
        omega
    by_cases h2 : resolveStart s1 > today
    · have e2 : fetch_crime_data noFail remote s1 today = ⟨s1, 0, [], [], false⟩ := by
        simp [fetch_crime_data, h2]
      rw [e2]
      exact ⟨rfl, rfl⟩
    · have e2 := fetch_noFail_run remote s1 today h2
      rw [e2]
      set st2 := resolveStart s1 with hst2
      set n2 := today + 1 - st2 with hn2
      set L2 := dayRecordsGo remote st2 n2 with hL2
      have hsplit : L = dayRecordsGo remote st1 (st2 - st1) ++ L2 := by
        rw [hLdef, hL2]
        have ha : n1 = (st2 - st1) + n2 := by omega
        rw [ha, dayRecordsGo_split]
        have hb : st1 + (st2 - st1) = st2 := by omega
        rw [hb]
      have hrep := upsertList_replay
        (upsertList sink (dayRecordsGo remote st1 (st2 - st1))).1 L2
        (upsertList_keys_nodup sink _ hnd)
      have hs1split : s1 =
          (upsertList (upsertList sink (dayRecordsGo remote st1 (st2 - st1))).1 L2).1 := by
        rw [hs1, hsplit, upsertList_append]
      constructor
      · show (upsertList s1 L2).2 = 0
        rw [hs1split, hrep]
      · show (upsertList s1 L2).1 = s1
        conv_lhs => rw [hs1split, hrep]
        rw [hs1split]

/-- C3, witness: a concrete double run.  The first run over days
20089-20090 inserts two records; the second run inserts zero and leaves
the sink unchanged. -/
theorem C3_ingestion_idempotent_witness :
    (fetch_crime_data noFail
        [⟨"A", some (20089, 0), [("f", "1")]⟩, ⟨"B", some (20090, 100), []⟩]
        (fetch_crime_data noFail
          [⟨"A", some (20089, 0), [("f", "1")]⟩, ⟨"B", some (20090, 100), []⟩]
          [] 20090).sink 20090).inserted = 0 ∧
    (fetch_crime_data noFail
        [⟨"A", some (20089, 0), [("f", "1")]⟩, ⟨"B", some (20090, 100), []⟩]
        (fetch_crime_data noFail
          [⟨"A", some (20089, 0), [("f", "1")]⟩, ⟨"B", some (20090, 100), []⟩]
          [] 20090).sink 20090).sink =
      (fetch_crime_data noFail
        [⟨"A", some (20089, 0), [("f", "1")]⟩, ⟨"B", some (20090, 100), []⟩]
        [] 20090).sink :=
  C3_ingestion_idempotent
    [⟨"A", some (20089, 0), [("f", "1")]⟩, ⟨"B", some (20090, 100), []⟩]
    [] 20090 (by decide)

/-! ## Claim C4: timestamp validation and repair -/

theorem setDate_setDate (r : RowF) (o1 o2 : Option String) :
    setDate (setDate r o1) o2 = setDate r o2 := rfl

theorem setDate_raw_offense_date (r : RowF) (o : Option String) :
    (setDate r o).raw.offense_date = o := rfl

/-- C4: per value of the occurrence-timestamp column, the validation loop
keeps a strict-ISO value unchanged and counts it valid; a value that fails
the strict pattern but parses in one of the two alternate formats is
reformatted to millisecond-precision ISO form and counted valid; and a
value that parses in neither way is replaced by `None` — so the row is
dropped by the following `dropna(subset)` — with the invalid counter
increased by exactly 1.  In particular `"2025-03-01 10:15:30"` becomes
`"2025-03-01T10:15:30.000"`, a strict ISO value with milliseconds passes
through unchanged, and `"not-a-date"` is dropped. -/
theorem C4_timestamp_validation (v : String) (r : RowF) (l : List RowF) :
    (isoMatch v = true →
      fixDates (setDate r (some v) :: l) =
        (setDate r (some v) :: (fixDates l).1,
          1 + (fixDates l).2.1, (fixDates l).2.2)) ∧
    (isoMatch v = false → ∀ f, correct_datetime v = some f →
      fixDates (setDate r (some v) :: l) =
        (setDate r (some f) :: (fixDates l).1,
          1 + (fixDates l).2.1, (fixDates l).2.2)) ∧
    (isoMatch v = false → correct_datetime v = none →
      fixDates (setDate r (some v) :: l) =
        (setDate r none :: (fixDates l).1,
          (fixDates l).2.1, 1 + (fixDates l).2.2) ∧
      (fixDates (setDate r (some v) :: l)).1.filter
          (fun q => q.raw.offense_date.isSome) =
        (fixDates l).1.filter (fun q => q.raw.offense_date.isSome)) ∧
    processDate "2025-03-01 10:15:30" = (some "2025-03-01T10:15:30.000", true) ∧
    processDate "2025-03-01T10:15:30.123" = (some "2025-03-01T10:15:30.123", true) ∧
    processDate "not-a-date" = (none, false) := by
  have hval : (setDate r (some v)).raw.offense_date.getD "nan" = v := rfl
  refine ⟨?_, ?_, ?_, by decide, by decide, by decide⟩
  · intro hiso
    show (setDate (setDate r (some v)) (processDate v).1 :: (fixDates l).1,
        (if (processDate v).2 then 1 else 0) + (fixDates l).2.1,
        (if (processDate v).2 then 0 else 1) + (fixDates l).2.2) = _
    rw [processDate, if_pos hiso, setDate_setDate]
    simp
  · intro hiso f hf
    show (setDate (setDate r (some v)) (processDate v).1 :: (fixDates l).1,
        (if (processDate v).2 then 1 else 0) + (fixDates l).2.1,
        (if (processDate v).2 then 0 else 1) + (fixDates l).2.2) = _
    rw [processDate, if_neg (by rw [hiso]; exact Bool.false_ne_true), hf,
      setDate_setDate]
    simp
  · intro hiso hf
    constructor
    · show (setDate (setDate r (some v)) (processDate v).1 :: (fixDates l).1,
          (if (processDate v).2 then 1 else 0) + (fixDates l).2.1,
          (if (processDate v).2 then 0 else 1) + (fixDates l).2.2) = _
      rw [processDate, if_neg (by rw [hiso]; exact Bool.false_ne_true), hf,
        setDate_setDate]
      simp
    · show ((setDate (setDate r (some v)) (processDate v).1 :: (fixDates l).1).filter
          (fun q => q.raw.offense_date.isSome)) = _
      rw [processDate, if_neg (by rw [hiso]; exact Bool.false_ne_true), hf,
        setDate_setDate, List.filter_cons]
      rw [if_neg (by rw [setDate_raw_offense_date]; exact Bool.false_ne_true)]

/-- C4, witness: the three branches discharged on concrete values, with a
concrete row and frame. -/
theorem C4_timestamp_validation_witness :
    fixDates (setDate ⟨⟨none, none, none, none, none, none, []⟩, none, none⟩
        (some "2025-03-01T10:15:30.123") :: []) =
      (setDate ⟨⟨none, none, none, none, none, none, []⟩, none, none⟩
        (some "2025-03-01T10:15:30.123") :: [], 1, 0) ∧
    fixDates (setDate ⟨⟨none, none, none, none, none, none, []⟩, none, none⟩
        (some "2025-03-01 10:15:30") :: []) =
      (setDate ⟨⟨none, none, none, none, none, none, []⟩, none, none⟩
        (some "2025-03-01T10:15:30.000") :: [], 1, 0) ∧
    fixDates (setDate ⟨⟨none, none, none, none, none, none, []⟩, none, none⟩
        (some "not-a-date") :: []) =
      (setDate ⟨⟨none, none, none, none, none, none, []⟩, none, none⟩
        none :: [], 0, 1) := by
  refine ⟨?_, ?_, ?_⟩
  · exact (C4_timestamp_validation "2025-03-01T10:15:30.123"
      ⟨⟨none, none, none, none, none, none, []⟩, none, none⟩ []).1 (by decide)
  · exact (C4_timestamp_validation "2025-03-01 10:15:30"
      ⟨⟨none, none, none, none, none, none, []⟩, none, none⟩ []).2.1 (by decide)
      "2025-03-01T10:15:30.000" (by decide)
  · exact ((C4_timestamp_validation "not-a-date"
      ⟨⟨none, none, none, none, none, none, []⟩, none, none⟩ []).2.2.1 (by decide)
      (by decide)).1

/-! ## Helper lemmas: membership through the cleaning stages -/

theorem fixDates_mem : ∀ (l : List RowF) (r : RowF), r ∈ (fixDates l).1 →
    ∃ q ∈ l, r = setDate q (processDate (q.raw.offense_date.getD "nan")).1 := by
  intro l
  induction l with
  | nil => intro r hr; cases hr
  | cons q m ih =>
    intro r hr
    rcases List.mem_cons.1 hr with hr | hr
    · exact ⟨q, List.mem_cons_self q m, hr⟩
    · obtain ⟨q2, hq2, he⟩ := ih r hr
      exact ⟨q2, List.mem_cons_of_mem q hq2, he⟩

theorem setDate_latitude (r : RowF) (o : Option String) :
    (setDate r o).latitude = r.latitude := rfl

theorem setDate_longitude (r : RowF) (o : Option String) :
    (setDate r o).longitude = r.longitude := rfl

theorem setDate_raw_latitude (r : RowF) (o : Option String) :
    (setDate r o).raw.latitude = r.raw.latitude := rfl

theorem castRow_raw (r : Row) (rf : RowF) (h : castRow r = some rf) :
    rf.raw = r := by
  unfold castRow at h
  cases hla : castVal r.latitude with
  | none => rw [hla] at h; cases h
  | some la =>
    cases hlo : castVal r.longitude with
    | none => rw [hla, hlo] at h; cases h
    | some lo =>
      rw [hla, hlo] at h
      cases h
      rfl

theorem castRows_mem : ∀ (l : List Row) (lf : List RowF), castRows l = some lf →
    ∀ rf ∈ lf, ∃ r ∈ l, castRow r = some rf := by
  intro l
  induction l with
  | nil =>
    intro lf h rf hrf
    cases h
    cases hrf
  | cons r m ih =>
    intro lf h rf hrf
    unfold castRows at h
    cases hc : castRow r with
    | none => rw [hc] at h; cases h
    | some rf0 =>
      cases hm : castRows m with
      | none => rw [hc, hm] at h; cases h
      | some mf =>
        rw [hc, hm] at h
        cases h
        rcases List.mem_cons.1 hrf with hrf | hrf
        · exact ⟨r, List.mem_cons_self r m, by rw [hc, hrf]⟩
        · obtain ⟨r2, hr2, he⟩ := ih mf hm rf hrf
          exact ⟨r2, List.mem_cons_of_mem r hr2, he⟩

/-! ## Claim C6: coordinate invariant of the cleaned table -/

/-- C6: every row of the Cleaning Pipeline's output (whenever the pipeline
completes, i.e. the coordinate cast raises no error) has a coordinate pair
different from `(0.0, 0.0)`, and its raw latitude was neither the redaction
marker `"REDACTED"` nor the invalid sentinel string `"-1.0"`. -/
theorem C6_coordinate_invariant (input : List Row) (out : CleanResult)
    (h : clean_and_analyze_crime_data input = some out) :
    ∀ r ∈ out.rows,
      ¬ (isZeroCoord r.latitude = true ∧ isZeroCoord r.longitude = true) ∧
      r.raw.latitude ≠ some "REDACTED" ∧ r.raw.latitude ≠ some "-1.0" := by
  intro r hr
  simp only [clean_and_analyze_crime_data] at h
  set df0 := input.map id with hdf0
  set df1 := if hasDup df0 then dropDuplicates df0 else df0 with hdf1
  set df2 := if hasDup df1 then dropDuplicates df1 else df1 with hdf2
  set df3 := df2.filter (fun r => decide (r.crime_against_category ≠ some "-")) with hdf3
  set df4 := df3.filter (fun r => decide (r.precinct ≠ some "-")) with hdf4
  set df5 := df4.filter (fun r =>
    decide (r.latitude ≠ some "REDACTED") && decide (r.latitude ≠ some "-1.0")) with hdf5
  cases hc : castRows df5 with
  | none => rw [hc] at h; cases h
  | some dfF =>
    rw [hc] at h
    cases h
    simp only at hr
    have hr9 := List.mem_filter.1 hr
    obtain ⟨q, hq8, hqe⟩ := fixDates_mem _ r hr9.1
    have hq7 := List.mem_filter.1 hq8
    have hq6 := List.mem_filter.1 hq7.1
    have hq5 := List.mem_filter.1 hq6.1
    obtain ⟨row, hrow5, hcast⟩ := castRows_mem df5 dfF hc q hq5.1
    have hrowfil := (List.mem_filter.1 hrow5).2
    rw [Bool.and_eq_true] at hrowfil
    have hraw : q.raw = row := castRow_raw row q hcast
    have hlat : r.latitude = q.latitude := by rw [hqe, setDate_latitude]
    have hlon : r.longitude = q.longitude := by rw [hqe, setDate_longitude]
    have hrawlat : r.raw.latitude = row.latitude := by
      rw [hqe, setDate_raw_latitude, hraw]
    refine ⟨?_, ?_, ?_⟩
    · intro hz
      have hq0 := hq7.2
      rw [hlat, hlon] at hz
      rw [hz.2, hz.1] at hq0
      simp at hq0
    · rw [hrawlat]
      exact of_decide_eq_true hrowfil.1
    · rw [hrawlat]
      exact of_decide_eq_true hrowfil.2

/-- C6, witness: the invariant instantiated on a concrete batch whose
single surviving row it constrains. -/
theorem C6_coordinate_invariant_witness :
    ¬ (isZeroCoord (some (⟨476, 1⟩ : DecVal)) = true ∧
        isZeroCoord (some (⟨-1223, 1⟩ : DecVal)) = true) ∧
    (some "47.6" : Option String) ≠ some "REDACTED" ∧
    (some "47.6" : Option String) ≠ some "-1.0" := by
  have h := C6_coordinate_invariant
    [⟨some "R1", some "2025-03-01 10:15:30", some "P", some "W",
      some "47.6", some "-122.3", []⟩]
    ⟨[⟨⟨some "R1", some "2025-03-01T10:15:30.000", some "P", some "W",
        some "47.6", some "-122.3", []⟩, some ⟨476, 1⟩, some ⟨-1223, 1⟩⟩],
      ⟨1, false, 1, 0⟩⟩ (by decide)
    ⟨⟨some "R1", some "2025-03-01T10:15:30.000", some "P", some "W",
      some "47.6", some "-122.3", []⟩, some ⟨476, 1⟩, some ⟨-1223, 1⟩⟩
    (by decide)
  exact h

/-! ## Claim C7: the "duplicates removed" indicator -/

theorem hasDup_dropDupGo : ∀ (l seen : List Row), hasDup (dropDupGo seen l) = false := by
  have hm : ∀ (l seen : List Row) (x : Row), x ∈ seen → x ∉ dropDupGo seen l := by
    intro l
    induction l with
    | nil => intro seen x _ hx; cases hx
    | cons y m ih =>
      intro seen x hxs hx
      unfold dropDupGo at hx
      by_cases hy : y ∈ seen
      · rw [if_pos hy] at hx
        exact ih seen x hxs hx
      · rw [if_neg hy] at hx
        rcases List.mem_cons.1 hx with hx | hx
        · exact hy (hx ▸ hxs)
        · exact ih (y :: seen) x (List.mem_cons_of_mem y hxs) hx
  intro l
  induction l with
  | nil => intro seen; rfl
  | cons y m ih =>
    intro seen
    unfold dropDupGo
    by_cases hy : y ∈ seen
    · rw [if_pos hy]
      exact ih seen
    · rw [if_neg hy]
      unfold hasDup
      rw [if_neg (hm m (y :: seen) y (List.mem_cons_self y seen))]
      exact ih (y :: seen)

theorem duplicates_flag_always_false (input : List Row) (out : CleanResult)
    (h : clean_and_analyze_crime_data input = some out) :
    out.meta.duplicatesRemoved = false := by
  simp only [clean_and_analyze_crime_data] at h
  have h1 : hasDup (if hasDup (input.map id) then dropDuplicates (input.map id)
      else input.map id) = false := by
    by_cases hd : hasDup (input.map id)
    · rw [if_pos hd]
      exact hasDup_dropDupGo (input.map id) []
    · rw [if_neg hd]
      exact Bool.eq_false_iff.2 hd
  rw [h1] at h
  simp only [Bool.false_eq_true, if_false, if_neg] at h
  cases hc : castRows ((((if hasDup (input.map id) then dropDuplicates (input.map id)
      else input.map id).filter
        (fun r => decide (r.crime_against_category ≠ some "-"))).filter
        (fun r => decide (r.precinct ≠ some "-"))).filter
        (fun r => decide (r.latitude ≠ some "REDACTED") &&
          decide (r.latitude ≠ some "-1.0"))) with
  | none => rw [hc] at h; cases h
  | some dfF =>
    rw [hc] at h
    cases h
    rfl

/-- C7: the reported "duplicates removed" indicator does not reflect the
drops — it is recomputed on the already-deduplicated frame, so it reads
`false` even on a batch that contained (and lost) an exact-duplicate row.
Here a two-row batch of identical rows shrinks to one surviving row while
the metadata still reports `duplicatesRemoved = false`. -/
theorem C7_duplicates_flag_failing_input :
    (clean_and_analyze_crime_data
        [⟨some "R1", some "2025-03-01 10:15:30", some "P", some "W",
          some "47.6", some "-122.3", []⟩,
         ⟨some "R1", some "2025-03-01 10:15:30", some "P", some "W",
          some "47.6", some "-122.3", []⟩]).map
      (fun out => (out.meta.duplicatesRemoved, out.rows.length)) =
      some (false, 1) := by
  decide

/-! ## Claim C9: determinism of the cleaning pipeline -/

/-- C9: the Cleaning Pipeline is deterministic — on equal raw input batches
it produces the same result, in particular the same surviving row list and
the same valid and invalid timestamp counts. -/
theorem C9_cleaning_deterministic (b1 b2 : List Row) (h : b1 = b2) :
    (clean_and_analyze_crime_data b1).map (fun o => o.rows) =
      (clean_and_analyze_crime_data b2).map (fun o => o.rows) ∧
    (clean_and_analyze_crime_data b1).map (fun o => o.meta.validDt) =
      (clean_and_analyze_crime_data b2).map (fun o => o.meta.validDt) ∧
    (clean_and_analyze_crime_data b1).map (fun o => o.meta.invalidDt) =
      (clean_and_analyze_crime_data b2).map (fun o => o.meta.invalidDt) := by
  subst h
  exact ⟨rfl, rfl, rfl⟩

/-- C9, witness: determinism discharged on a concrete batch. -/
theorem C9_cleaning_deterministic_witness :
    (clean_and_analyze_crime_data
        [⟨some "R1", some "not-a-date", some "P", some "W",
          some "1.5", some "2.5", []⟩]).map (fun o => o.rows) =
      (clean_and_analyze_crime_data
        [⟨some "R1", some "not-a-date", some "P", some "W",
          some "1.5", some "2.5", []⟩]).map (fun o => o.rows) ∧
    (clean_and_analyze_crime_data
        [⟨some "R1", some "not-a-date", some "P", some "W",
          some "1.5", some "2.5", []⟩]).map (fun o => o.meta.validDt) =
      (clean_and_analyze_crime_data
        [⟨some "R1", some "not-a-date", some "P", some "W",
          some "1.5", some "2.5", []⟩]).map (fun o => o.meta.validDt) ∧
    (clean_and_analyze_crime_data
        [⟨some "R1", some "not-a-date", some "P", some "W",
          some "1.5", some "2.5", []⟩]).map (fun o => o.meta.invalidDt) =
      (clean_and_analyze_crime_data
        [⟨some "R1", some "not-a-date", some "P", some "W",
          some "1.5", some "2.5", []⟩]).map (fun o => o.meta.invalidDt) :=
  C9_cleaning_deterministic
    [⟨some "R1", some "not-a-date", some "P", some "W",
      some "1.5", some "2.5", []⟩]
    [⟨some "R1", some "not-a-date", some "P", some "W",
      some "1.5", some "2.5", []⟩] rfl

/-! ## Claim C10: the cleaning asset does not mutate its input -/

/-- C10: the cleaning asset leaves the table object passed by the caller
unchanged: its body copies the input first (`.copy()`, modelled by
`input.map id`) and every later operation reads and rebinds only the copy,
so the caller gets its table back as passed and the result is computed
from the copy alone. -/
theorem C10_input_unchanged (input : List Row) :
    (clean_asset_call input).2 = input ∧
    (clean_asset_call input).1 = clean_and_analyze_crime_data input :=
  ⟨rfl, rfl⟩

end SeattleCrime
